import Mathlib

/-!
A verification development for the command table of
`src/config/commands.js` (a Pokemon Showdown fork).  The JavaScript
source is embedded shallowly: JS objects whose keys are inserted and
enumerated in insertion order become association lists, the `dexsearch`
filter engine's passes become folds over those lists, and the external
collaborators (`Tools`, the Pokedex catalog, the permission gate) become
parameters of the embedded functions.
-/

namespace PS

/-! ## Basic string helpers (JS `toId`, `toLowerCase`, `indexOf`, `parseInt`) -/

/-- `toId`: lowercase and strip every non-alphanumeric character.
Modelled from the spec: the catalog's normalized identifier form is
"lowercase, punctuation-stripped" (the helper itself lives outside
`src/`). -/
def toId (s : String) : String :=
  String.mk ((s.data.filter Char.isAlphanum).map Char.toLower)

/-- JS `String.prototype.toLowerCase` restricted to the characters used here. -/
def lowerStr (s : String) : String :=
  String.mk (s.data.map Char.toLower)

/-- JS `String.prototype.toUpperCase` of a single character. -/
def upperChar (c : Char) : Char := c.toUpper

/-- Is `pat` a prefix of `l`? -/
def isPrefixList : List Char → List Char → Bool
  | [], _ => true
  | _ :: _, [] => false
  | p :: ps, c :: cs => p = c && isPrefixList ps cs

/-- JS `String.prototype.indexOf` on character lists: first index at which
`pat` occurs in `l`, or `none`. -/
def idxOfList (pat : List Char) : List Char → Option Nat
  | [] => if pat = [] then some 0 else none
  | c :: cs =>
    if isPrefixList pat (c :: cs) then some 0
    else (idxOfList pat cs).map (· + 1)

/-- JS `String.prototype.indexOf`. -/
def strIdxOf (s pat : String) : Option Nat := idxOfList pat.data s.data

/-- JS `String.prototype.trim` (whitespace from both ends), computable by
structural recursion. -/
def jsTrim (s : String) : String :=
  String.mk (((s.data.dropWhile Char.isWhitespace).reverse.dropWhile
    Char.isWhitespace).reverse)

/-- `target.slice(0,1) === '!'`. -/
def startsBang (s : String) : Bool :=
  match s.data with
  | '!' :: _ => true
  | _ => false

/-- `target.slice(1)`. -/
def dropOne (s : String) : String := String.mk (s.data.drop 1)

/-- Split on a separator predicate, JS `String.prototype.split` style
(empty pieces preserved, `""` yields `[""]`). -/
def splitAux (p : Char → Bool) : List Char → List Char → List String
  | acc, [] => [String.mk acc.reverse]
  | acc, c :: cs =>
    if p c then String.mk acc.reverse :: splitAux p [] cs
    else splitAux p (c :: acc) cs

/-- JS `String.prototype.split` with a single-character class. -/
def jsSplit (p : Char → Bool) (s : String) : List String :=
  splitAux p [] s.data

/-- Digit-list value, most significant first. -/
def digitsVal (ds : List Char) : Nat :=
  ds.foldl (fun acc c => acc * 10 + (c.toNat - '0'.toNat)) 0

/-- JS `parseInt` on an already-trimmed string: optional sign followed by a
maximal run of digits; `none` plays the role of `NaN`. -/
def jsParseInt (s : String) : Option Int :=
  let p : Bool × List Char :=
    match s.data with
    | '-' :: rest => (true, rest)
    | '+' :: rest => (false, rest)
    | cs => (false, cs)
  let ds := p.2.takeWhile Char.isDigit
  if ds.isEmpty then none
  else some ((if p.1 then (-1 : Int) else 1) * (digitsVal ds : Int))

/-! ## JS objects with boolean values (the per-category search maps)

A JS object literal keeps keys in insertion order; assignment updates an
existing key in place and otherwise appends.  `searches['x'][k]` yields
`undefined`, `false` or `true`, embedded as `Option Bool`. -/

abbrev BMap := List (String × Bool)

/-- Property read: `m[k]` (`none` = `undefined`). -/
def getKey (m : BMap) (k : String) : Option Bool :=
  (m.find? (fun p => p.1 = k)).map (fun p => p.2)

/-- Property write: `m[k] = v` (update in place or append). -/
def setKey (m : BMap) (k : String) (v : Bool) : BMap :=
  if m.any (fun p => p.1 = k) then
    m.map (fun p => if p.1 = k then (k, v) else p)
  else m ++ [(k, v)]

/-- `Object.count(m, true)`: number of keys whose value is `true`.
Modelled from the spec: `Object.count` is a framework helper (outside
`src/`) counting own enumerable keys with the given value. -/
def countTrue (m : BMap) : Nat := (m.filter (fun p => p.2 = true)).length

end PS

namespace PS

/-! ## External game data consulted by the parser

`Tools.getAbility`, `Tools.data.TypeChart` and `Tools.getMove` live outside
`src/`; they are catalogs keyed by the normalized id form, supplied here as
parameters. -/

structure ToolsData where
  /-- Canonical ability names (`Tools.getAbility(s).exists` iff some name has
  the same `toId`; `.name` is that canonical name). -/
  abilities : List String
  /-- Keys of `Tools.data.TypeChart` (capitalized type names). -/
  typeChart : List String
  /-- Canonical move names, for `Tools.getMove`. -/
  moves : List String
deriving Repr

/-- `Tools.getAbility(s)`: the canonical name when it exists. -/
def getAbilityName (tools : ToolsData) (s : String) : Option String :=
  tools.abilities.find? (fun n => toId n = toId s)

/-- `Tools.getMove(s)`: the canonical name when it exists. -/
def getMoveName (tools : ToolsData) (s : String) : Option String :=
  tools.moves.find? (fun n => toId n = toId s)

/-! ## dexsearch parse phase (src/config/commands.js lines 271-349) -/

/-- The `searches` object plus the `showAll` / `megaSearch` locals built by
the token-scanning loop of `dexsearch`.  A category map is "created"
(`searches[cat]` truthy) iff its list is nonempty: creation is always
immediately followed by a key write. -/
structure Searches where
  ability : BMap := []
  tier : BMap := []
  color : BMap := []
  gen : BMap := []
  types : BMap := []
  moves : BMap := []
  showAll : Bool := false
  megaSearch : Option Bool := none
deriving Repr, DecidableEq

/-- `var allTiers = {'uber':1,'ou':1,'lc':1,'cap':1,'bl':1}` (key set). -/
def allTiers : List String := ["uber", "ou", "lc", "cap", "bl"]

/-- `var allColours = {...}` (key set). -/
def allColours : List String :=
  ["green", "red", "blue", "white", "brown", "yellow", "purple", "pink",
   "gray", "black"]

/-- `target.charAt(0).toUpperCase() + target.slice(1, i)` where `i` is the
index of `' type'` in `target`. -/
def typePhrase (target : String) (i : Nat) : String :=
  match target.data with
  | [] => ""
  | c :: cs => String.mk (c.toUpper :: cs.take (i - 1))

/-- The message for a token that matches no search category. -/
def unknownTokenMsg (target : String) : String :=
  "\"" ++ target ++ "\" could not be found in any of the search categories."

/-- The move sub-branch at the end of the classification chain (lines
338-346): `Tools.getMove(target)`, arity check, or the unknown-token
failure. -/
def parseMoveBranch (tools : ToolsData) (st : Searches) (isNot : Bool)
    (target : String) : Except String Searches :=
  match getMoveName tools target with
  | some mName =>
    if countTrue st.moves = 4 ∧ isNot = false then
      .error "Specify a maximum of 4 moves."
    else .ok { st with moves := setKey st.moves mName (!isNot) }
  | none => .error (unknownTokenMsg target)

/-- The classification chain after the ability check (lines 296-347):
tier keyword, colour keyword, generation digit, `'all'`, mega modifier,
`'<word> type'` phrase, move name; otherwise a hard failure.  Note that a
`' type'` token whose word is not in the type chart falls through to the
move branch with the already-transformed word. -/
def parseTokenTail (tools : ToolsData) (broadcasting : Bool) (st : Searches)
    (isNot : Bool) (target : String) : Except String Searches :=
  if target ∈ allTiers then
      .ok { st with tier := setKey st.tier target (!isNot) }
    else if target ∈ allColours then
      .ok { st with color := setKey st.color target (!isNot) }
    else if (match jsParseInt target with
             | some n => decide (0 < n ∧ n < 7)
             | none => false) = true then
      .ok { st with gen := setKey st.gen target (!isNot) }
    else if target = "all" then
      if broadcasting then
        .error "A search with the parameter \"all\" cannot be broadcast."
      else .ok { st with showAll := true }
    else if target = "megas" ∨ target = "mega" then
      .ok { st with megaSearch := some (!isNot) }
    else
      match strIdxOf target " type" with
      | some i =>
        let word := typePhrase target i
        if word ∈ tools.typeChart then
          if countTrue st.types = 2 ∧ isNot = false then
            .error "Specify a maximum of two types."
          else .ok { st with types := setKey st.types word (!isNot) }
        else parseMoveBranch tools st isNot word
      | none => parseMoveBranch tools st isNot target

/-- One iteration of the token-scanning loop: the ability branch, then the
rest of the classification chain on the trimmed, lowercased,
`'!'`-stripped token. -/
def parseToken (tools : ToolsData) (broadcasting : Bool) (st : Searches)
    (rawTok : String) : Except String Searches :=
  let lowered := lowerStr (jsTrim rawTok)
  let isNot := startsBang lowered
  let target := if isNot then dropOne lowered else lowered
  match getAbilityName tools rawTok with
  | some aName =>
    if countTrue st.ability = 1 ∧ isNot = false then
      .error "Specify only one ability."
    else .ok { st with ability := setKey st.ability aName (!isNot) }
  | none => parseTokenTail tools broadcasting st isNot target

/-- The whole token loop, threading the `searches` state. -/
def parseTokensAux (tools : ToolsData) (broadcasting : Bool) :
    Searches → List String → Except String Searches
  | st, [] => .ok st
  | st, tok :: rest =>
    match parseToken tools broadcasting st tok with
    | .error e => .error e
    | .ok st' => parseTokensAux tools broadcasting st' rest

/-- Scanning all tokens starting from the empty `searches`. -/
def parseTokens (tools : ToolsData) (broadcasting : Bool)
    (toks : List String) : Except String Searches :=
  parseTokensAux tools broadcasting {} toks

/-- `Object.size(searches)`: the number of category keys created so far. -/
def sizeSearches (st : Searches) : Nat :=
  (if st.ability.isEmpty then 0 else 1) + (if st.tier.isEmpty then 0 else 1) +
  (if st.color.isEmpty then 0 else 1) + (if st.gen.isEmpty then 0 else 1) +
  (if st.types.isEmpty then 0 else 1) + (if st.moves.isEmpty then 0 else 1)

end PS

namespace PS

/-! ## The catalog (external `Tools.data.Pokedex` / `Tools.getTemplate`) -/

/-- A species template as read by `dexsearch`.  `gen` is stored as its
`String(...)` rendering (the data file stores a number), `learnset` is
`none` when the template object has no `learnset` property (an empty but
present learnset is `some []`, which is truthy in JS), and `prevo` is
`none` when the field is absent or empty (both falsy). -/
structure Template where
  id : String := ""
  species : String := ""
  types : List String := []
  tier : String := ""
  abilities : List String := []
  gen : String := ""
  color : String := ""
  isMega : Bool := false
  learnset : Option (List String) := none
  baseSpecies : String := ""
  evos : List String := []
  prevo : Option String := none
deriving Repr, DecidableEq

/-- The Pokedex: id-keyed templates in file (insertion) order. -/
abbrev Catalog := List (String × Template)

/-- `Tools.getTemplate(name)`: look up by normalized id; an unknown name
yields a junk (but truthy) template object in JS, embedded as the default
`Template`. -/
def getTemplateD (catalog : Catalog) (name : String) : Template :=
  ((catalog.find? (fun p => p.1 = toId name)).map (fun p => p.2)).getD {}

/-! ## dexsearch evaluation phase (lines 351-436) -/

/-- The initial `dex` object (lines 351-358): every catalog entry whose
tier is not `'Illegal'`, is not `'CAP'` unless the cap tier was requested,
and matches the mega filter when one is present. -/
def buildDex (catalog : Catalog) (st : Searches) : List (String × Template) :=
  catalog.filter (fun p =>
    p.2.tier ≠ "Illegal" ∧
    (p.2.tier ≠ "CAP" ∨ (¬st.tier.isEmpty ∧ getKey st.tier "cap" = some true)) ∧
    (st.megaSearch = none ∨ (st.megaSearch = some true ∧ p.2.isMega = true) ∨
      (st.megaSearch = some false ∧ p.2.isMega = false)))

/-- `searches[types][dex[mon].types[j]]` with an out-of-range index reading
`undefined`. -/
def lookupTypeKey (m : BMap) : Option String → Option Bool
  | none => none
  | some s => getKey m s

/-- The `types` pass (lines 363-372).  With exactly two required types an
entry survives only if both of its type slots look up truthy; otherwise an
explicitly excluded type, or (when some type is required) no required type
present, removes the entry. -/
def typesPass (m : BMap) (dex : List (String × Template)) :
    List (String × Template) :=
  if countTrue m = 2 then
    dex.filter (fun p =>
      lookupTypeKey m (p.2.types.get? 0) = some true ∧
      lookupTypeKey m (p.2.types.get? 1) = some true)
  else
    dex.filter (fun p =>
      ¬(lookupTypeKey m (p.2.types.get? 0) = some false ∨
        lookupTypeKey m (p.2.types.get? 1) = some false ∨
        (0 < countTrue m ∧
          ¬lookupTypeKey m (p.2.types.get? 0) = some true ∧
          ¬lookupTypeKey m (p.2.types.get? 1) = some true)))

/-- The derived LC-legality criterion of the `tier` pass (line 379): has a
later evolution, no pre-evolution, and is not on the LC banlist. -/
def isLCDerived (lcBanlist : List String) (t : Template) : Prop :=
  t.evos ≠ [] ∧ t.prevo = none ∧ t.species ∉ lcBanlist

instance (lcBanlist : List String) (t : Template) :
    Decidable (isLCDerived lcBanlist t) := by
  unfold isLCDerived; infer_instance

/-- The `tier` pass (lines 374-389): the derived-LC check (only when an
`lc` key is present), then the generic exact-match check against the
stored (lowercased) tier string. -/
def tierPass (lcBanlist : List String) (m : BMap)
    (dex : List (String × Template)) : List (String × Template) :=
  dex.filter (fun p =>
    if (getKey m "lc").isSome ∧
        ¬(getKey m "lc" = some true ↔ isLCDerived lcBanlist p.2) then
      False
    else if getKey m (lowerStr p.2.tier) = some false then False
    else if 0 < countTrue m ∧ ¬getKey m (lowerStr p.2.tier) = some true then
      False
    else True)

/-- The shared `gen`/`color` pass body (lines 391-397): `field` is
`String(dex[mon][search])`. -/
def genColorPass (m : BMap) (field : Template → String)
    (dex : List (String × Template)) : List (String × Template) :=
  dex.filter (fun p =>
    ¬(getKey m (lowerStr (field p.2)) = some false ∨
      (0 < countTrue m ∧ ¬getKey m (lowerStr (field p.2)) = some true)))

/-- The `ability` pass (lines 399-410): `Object.count(abilities, name) > 0`
is membership of the name among the ability slots. -/
def abilityPass (m : BMap) (dex : List (String × Template)) :
    List (String × Template) :=
  dex.filter (fun p =>
    m.all (fun q => decide (q.1 ∈ p.2.abilities) = q.2))

end PS

namespace PS

/-! ## The moves pass (lines 412-431)

`dex` values during this pass are either a template or the literal
`false`, which marks an entry explicitly removed by an excluded move.
Deleting a key and then assigning it re-appends it at the end of the
object; `for (var mon in dex)` enumerates the keys present at loop entry,
skipping keys deleted before their visit and never visiting keys added
during the loop. -/

inductive DexVal where
  | tmpl (t : Template)
  | fals
deriving Repr, DecidableEq

abbrev DexList := List (String × DexVal)

/-- Property read on the `dex` object (first matching key). -/
def lookupD : DexList → String → Option DexVal
  | [], _ => none
  | p :: rest, k => if p.1 = k then some p.2 else lookupD rest k

/-- Property write: update in place, or append at the end. -/
def setKeyD : DexList → String → DexVal → DexList
  | [], k, v => [(k, v)]
  | p :: rest, k, v =>
    if p.1 = k then (k, v) :: rest else p :: setKeyD rest k v

/-- `delete dex[k]`. -/
def eraseKeyD : DexList → String → DexList
  | [], _ => []
  | p :: rest, k =>
    if p.1 = k then eraseKeyD rest k else p :: eraseKeyD rest k

/-- The template whose learnset is consulted for an entry (lines 414-416):
the entry's own template, falling back to its base species when the
`learnset` property is missing; `none` when both lack one (the entry is
then skipped by `continue`). -/
def effLearnset (catalog : Catalog) (t : Template) : Option (List String) :=
  let tem := getTemplateD catalog t.id
  match tem.learnset with
  | some ls => some ls
  | none => (getTemplateD catalog tem.baseSpecies).learnset

/-- The three moves Sketch cannot copy (line 420). -/
def bannedSketchMoves : List String := ["chatter", "struggle", "magikarpsrevenge"]

/-- `canLearn` for a canonical move name against a learnset of move ids. -/
def canLearnMove (ls : List String) (moveName : String) : Bool :=
  ("sketch" ∈ ls && decide (toId moveName ∉ bannedSketchMoves)) ||
    toId moveName ∈ ls

/-- The running binding of the entry being visited by the first loop:
whether it still sits at its original object position, and its current
value (`none` after `delete`). -/
structure EntryFate where
  inPlace : Bool
  cur : Option DexVal
deriving Repr, DecidableEq

/-- Effect of one `searches['moves']` key on the visited entry (lines
420-422): a required move it cannot learn deletes it; an excluded move it
can learn sets it to `false` (re-appending the key if it had just been
deleted). -/
def moveStepFate (ls : List String) (f : EntryFate) (q : String × Bool) :
    EntryFate :=
  let canL := canLearnMove ls q.1
  if canL = false ∧ q.2 = true then { f with cur := none }
  else if q.2 = false ∧ canL = true then
    match f.cur with
    | none => { inPlace := false, cur := some .fals }
    | some _ => { f with cur := some .fals }
  else f

/-- The inner loop over `searches['moves']` for one entry, including the
defensive `Tools.getMove` existence check (lines 417-419) that aborts the
whole command.  Modelled from the spec: the not-a-known-move message
renders the move object by naming the offending move key (the rendering
of the object lives in the external `Tools`). -/
def moveFold (tools : ToolsData) (ls : List String) :
    EntryFate → BMap → Except String EntryFate
  | f, [] => .ok f
  | f, q :: rest =>
    match getMoveName tools q.1 with
    | none => .error ("\"" ++ q.1 ++ "\" is not a known move.")
    | some mName => moveFold tools ls (moveStepFate ls f (mName, q.2)) rest

/-- The first loop of the moves pass (lines 413-424): each entry of `dex`
is visited once; it survives in place, is deleted, or is re-appended at
the end of the object with value `false`.  Returns the in-place entries
and the re-appended entries. -/
def movesLoop1 (tools : ToolsData) (catalog : Catalog) (moves : BMap) :
    List (String × Template) → Except String (DexList × DexList)
  | [] => .ok ([], [])
  | (k, t) :: rest =>
    let fateE : Except String EntryFate :=
      match effLearnset catalog t with
      | none => .ok { inPlace := true, cur := some (.tmpl t) }
      | some ls => moveFold tools ls { inPlace := true, cur := some (.tmpl t) } moves
    match fateE with
    | .error e => .error e
    | .ok f =>
      match movesLoop1 tools catalog moves rest with
      | .error e => .error e
      | .ok (ks, apps) =>
        match f.cur with
        | none => .ok (ks, apps)
        | some v =>
          if f.inPlace then .ok ((k, v) :: ks, apps)
          else .ok (ks, (k, v) :: apps)

/-- `for (var evo in dex[mon].evos) if (dex[evo] !== false) dex[evo] =
Tools.getTemplate(evo)` (line 427), in list order. -/
def propagate (catalog : Catalog) : DexList → List String → DexList
  | dex, [] => dex
  | dex, e :: rest =>
    propagate catalog
      (if lookupD dex e = some .fals then dex
       else setKeyD dex e (.tmpl (getTemplateD catalog e))) rest

/-- The propagation half of a visit (lines 426-428): a truthy entry with
evolutions pulls each not-explicitly-removed evolution into the object. -/
def loop2Propagate (catalog : Catalog) (dex : DexList) (k : String) : DexList :=
  match lookupD dex k with
  | some (.tmpl t) => if t.evos.isEmpty then dex else propagate catalog dex t.evos
  | _ => dex

/-- One visit of the second loop (lines 425-430): propagation, then, if
the visited key's value is falsy, its deletion. -/
def loop2Step (catalog : Catalog) (dex : DexList) (k : String) : DexList :=
  let dex1 := loop2Propagate catalog dex k
  match lookupD dex1 k with
  | some .fals => eraseKeyD dex1 k
  | _ => dex1

/-- The second loop of the moves pass: the keys present at loop entry are
visited in order (keys added during the loop are not visited). -/
def movesLoop2 (catalog : Catalog) (dex : DexList) : DexList :=
  (dex.map (fun p => p.1)).foldl (loop2Step catalog) dex

/-- The whole `case 'moves'` pass. -/
def movesPass (tools : ToolsData) (catalog : Catalog) (moves : BMap)
    (dex0 : List (String × Template)) : Except String DexList :=
  match movesLoop1 tools catalog moves dex0 with
  | .error e => .error e
  | .ok (ks, apps) => .ok (movesLoop2 catalog (ks ++ apps))

/-- Read the surviving templates back out of the moves-pass object.  After
the second loop every remaining value is a template
(each `false` value is deleted at its own visit, and the loop never
writes `false`); the `filterMap` never actually drops an entry. -/
def dexTemplates (dex : DexList) : List (String × Template) :=
  dex.filterMap (fun p =>
    match p.2 with
    | .tmpl t => some (p.1, t)
    | .fals => none)

/-! ## Pass sequencing, ordering and the reply (lines 360-451) -/

/-- The pass loop `for (var search in {'moves':1,'types':1,'ability':1,
'tier':1,'gen':1,'color':1})`, in that key order, skipping categories that
were never created. -/
def runPasses (tools : ToolsData) (catalog : Catalog) (lcBanlist : List String)
    (st : Searches) (dex0 : List (String × Template)) :
    Except String (List (String × Template)) :=
  let afterMoves : Except String (List (String × Template)) :=
    if st.moves.isEmpty then .ok dex0
    else (movesPass tools catalog st.moves dex0).map dexTemplates
  match afterMoves with
  | .error e => .error e
  | .ok d1 =>
    let d2 := if st.types.isEmpty then d1 else typesPass st.types d1
    let d3 := if st.ability.isEmpty then d2 else abilityPass st.ability d2
    let d4 := if st.tier.isEmpty then d3 else tierPass lcBanlist st.tier d3
    let d5 := if st.gen.isEmpty then d4 else genColorPass st.gen (fun t => t.gen) d4
    let d6 := if st.color.isEmpty then d5 else genColorPass st.color (fun t => t.color) d5
    .ok d6

/-- Insertion into a ≤-sorted list of strings. -/
def insertSorted (s : String) : List String → List String
  | [] => [s]
  | t :: ts => if s ≤ t then s :: t :: ts else t :: insertSorted s ts

/-- `results.sort()` with the default (lexicographic string) comparator. -/
def jsSort : List String → List String
  | [] => []
  | s :: ss => insertSorted s (jsSort ss)

/-- The trailing hint of a truncated reply (line 446). -/
def furtherMatchesHint (n : Nat) : String :=
  ", and " ++ toString n ++
    " more. Redo the search with \"all\" as a search parameter to show all results."

/-- Lines 439-450: the reply string.  `shuffled` is the result of the
random-comparator `sort` of line 445, supplied by the caller as the
outcome of the external randomness. -/
def formatResults (showAll : Bool) (shuffled : List String)
    (results : List String) : String :=
  if 0 < results.length then
    if showAll = true ∨ results.length ≤ 10 then
      String.intercalate ", " (jsSort results)
    else
      String.intercalate ", " (shuffled.take 10) ++
        furtherMatchesHint (results.length - 10)
  else "No Pokémon found."

/-- A single outbound action of a handler. -/
inductive Reply where
  | reply (s : String)
  | replyBox (s : String)
  | helpParse (topic : String)
  | thrown
deriving Repr, DecidableEq

/-- The body of `dexsearch` after a successful broadcast check (lines
271-451): help on an empty target, token scanning, the all-only check,
the initial dex, the passes, and the reply. -/
def dexsearchBody (tools : ToolsData) (catalog : Catalog)
    (lcBanlist : List String) (broadcasting : Bool)
    (shuffle : List String → List String) (target : String) : Reply :=
  if target = "" then .helpParse "dexsearch"
  else
    match parseTokens tools broadcasting (jsSplit (fun c => c = ',') target) with
    | .error e => .reply e
    | .ok st =>
      if st.showAll = true ∧ sizeSearches st = 0 ∧ st.megaSearch = none then
        .reply ("No search parameters other than \"all\" were found.\nTry \"/help dexsearch\" for more information on this command.")
      else
        match runPasses tools catalog lcBanlist st (buildDex catalog st) with
        | .error e => .replyBox e
        | .ok dexF =>
          let results := dexF.map (fun p => p.2.species)
          .replyBox (formatResults st.showAll (shuffle results) results)

/-- The `dexsearch` handler (line 268): `if (!this.canBroadcast()) return;`
then the body, which emits exactly one reply.  `canB` is the broadcast
controller's transition result and `broadcasting` the resulting state
consulted by the `'all'` token check. -/
def dexsearchCmd (tools : ToolsData) (catalog : Catalog)
    (lcBanlist : List String) (canB broadcasting : Bool)
    (shuffle : List String → List String) (target : String) : List Reply :=
  if canB = false then []
  else [dexsearchBody tools catalog lcBanlist broadcasting shuffle target]

end PS

namespace PS

/-! ## The `data` handler (lines 247-265) -/

/-- One hit returned by the external `Tools.dataSearch`. -/
structure DataHit where
  id : String
  searchType : String
  name : String
deriving Repr, DecidableEq

/-- One `|c|~|/data-...` line of the reply. -/
def dataLine (h : DataHit) : String :=
  "|c|~|/data-" ++ h.searchType ++ " " ++ h.name ++ "\n"

/-- The reply string built by `data` (lines 250-262).  `newTargets` is the
external `Tools.dataSearch(target)` result (`none`/empty = falsy), and
`aliasHit` is the truthiness of `Tools.data.Aliases[toId(target)]`. -/
def dataBody (target : String) (newTargets : Option (List DataHit))
    (aliasHit : Bool) : String :=
  match newTargets with
  | some (h0 :: rest) =>
    (if h0.id ≠ toId target ∧ aliasHit = false then
      "No Pokemon, item, move or ability named \x27" ++ target ++
        "\x27 was found. Showing the data of \x27" ++ h0.name ++ "\x27 instead.\n"
     else "") ++
    String.join ((h0 :: rest).map dataLine)
  | _ =>
    "No Pokemon, item, move or ability named \x27" ++ target ++
      "\x27 was found. (Check your spelling?)"

/-- The `data` handler: broadcast check, then a single reply. -/
def dataCmd (canB : Bool) (target : String) (newTargets : Option (List DataHit))
    (aliasHit : Bool) : List Reply :=
  if canB = false then [] else [.reply (dataBody target newTargets aliasHit)]

/-! ## The `effectiveness` handler (lines 558-609)

The target-resolution loop runs before the broadcast check; the reply is
built only after it. -/

/-- What an external `Tools.getType` / `getMove` / `getTemplate` lookup
returns when it exists: the properties the handler reads. -/
structure FData where
  id : String := ""
  name : String := ""
  typ : Option String := none
  types : Option (List String) := none
  species : String := ""
  effectType : String := ""
  basePower : Nat := 0
  hasBasePowerCallback : Bool := false
deriving Repr, DecidableEq

inductive EffMethod where
  | getType
  | getMove
  | getTemplate
deriving Repr, DecidableEq

/-- `var sourceMethods = {'getType':1, 'getMove':1}` (key set). -/
def sourceMethodsL : List EffMethod := [.getType, .getMove]

/-- `var targetMethods = {'getType':1, 'getTemplate':1}` (key set). -/
def targetMethodsL : List EffMethod := [.getType, .getTemplate]

/-- `var searchMethods = {'getType':1, 'getMove':1, 'getTemplate':1}`. -/
def allMethodsL : List EffMethod := [.getType, .getMove, .getTemplate]

/-- The external `Tools` lookups and type-chart queries used here. -/
structure EffTools where
  getTypeF : String → Option FData
  getMoveF : String → Option FData
  getTemplateF : String → Option FData
  getImmunityP : String → List String → Bool
  getEffectivenessP : (FData ⊕ String) → List String → Int

def runEffMethod (et : EffTools) : EffMethod → String → Option FData
  | .getType, s => et.getTypeF s
  | .getMove, s => et.getMoveF s
  | .getTemplate, s => et.getTemplateF s

/-- `for (var method in searchMethods) { foundData = Tools[method](t);
if (foundData.exists) break; }` -/
def tryMethods (et : EffTools) : List EffMethod → String → Option (EffMethod × FData)
  | [], _ => none
  | m :: ms, s =>
    match runEffMethod et m s with
    | some f => some (m, f)
    | none => tryMethods et ms s

/-- `source` is either the found move object (when `.type` is truthy) or a
bare id string. -/
abbrev AtkSource := FData ⊕ String

/-- Lines 576-594: assign the found data to the source or defender slot and
switch the method set. -/
def effAssign (src : Option (AtkSource × String))
    (dfn : Option (List String × String)) (sm : List EffMethod)
    (found : EffMethod × FData) :
    Option (AtkSource × String) × Option (List String × String) × List EffMethod :=
  if src.isNone ∧ found.1 ∈ sourceMethodsL then
    match found.2.typ with
    | some _ => (some (Sum.inl found.2, found.2.name), dfn, targetMethodsL)
    | none => (some (Sum.inr found.2.id, found.2.id), dfn, targetMethodsL)
  else if dfn.isNone ∧ found.1 ∈ targetMethodsL then
    match found.2.types with
    | some ts => (src, some (ts, found.2.species ++ " (not counting abilities)"), sourceMethodsL)
    | none => (src, some ([found.2.id], found.2.id), sourceMethodsL)
  else (src, dfn, sm)

/-- The resolution loop over the (two) targets; `none` is the
`return this.parse('/help effectiveness')` abort. -/
def effLoop (et : EffTools) :
    Option (AtkSource × String) × Option (List String × String) × List EffMethod →
    List String →
    Option (Option (AtkSource × String) × Option (List String × String))
  | st, [] => some (st.1, st.2.1)
  | (src, dfn, sm), t :: rest =>
    match tryMethods et sm t with
    | none => none
    | some found => effLoop et (effAssign src dfn sm found) rest

/-- `source.type || source` — always a type-name string by construction. -/
def atkTypeOf : AtkSource → String
  | Sum.inl f => f.typ.getD ""
  | Sum.inr s => s

/-- The decimal rendering of `Math.pow(2, e)` for the exponents the type
chart can produce (−2..2); other exponents do not occur.  Modelled from
the spec: the numeric rendering is done by the JS runtime, outside the
core. -/
def pow2Str : Int → String
  | Int.ofNat n => toString (2 ^ n)
  | Int.negSucc 0 => "0.5"
  | Int.negSucc 1 => "0.25"
  | Int.negSucc n => "2^-" ++ toString (n + 2)

/-- The `factor` computation (lines 599-606) rendered into the reply. -/
def factorStr (et : EffTools) (src : AtkSource) (dts : List String) : String :=
  if et.getImmunityP (atkTypeOf src) dts then
    let nonStatus : Bool :=
      match src with
      | Sum.inr _ => true
      | Sum.inl f =>
        decide (f.effectType ≠ "Move") || decide (f.basePower ≠ 0) ||
          f.hasBasePowerCallback
    if nonStatus then pow2Str (et.getEffectivenessP src dts) else "1"
  else "0"

/-- The `effectiveness` handler (lines 558-609).  `Reply.thrown` marks the
state in which the JS would dereference an unset `source`/`defender`
(unreachable for two-element target lists, see `effLoop_resolves`). -/
def effectivenessCmd (et : EffTools) (canB : Bool) (target : String) :
    List Reply :=
  let targets := (jsSplit (fun c => c = ',' || c = '/') target).take 2
  if targets.length ≠ 2 then
    [.reply "Attacker and defender must be separated with a comma."]
  else
    match effLoop et (none, none, allMethodsL) targets with
    | none => [.helpParse "effectiveness"]
    | some (srcO, dfnO) =>
      if canB = false then []
      else
        match srcO, dfnO with
        | some (src, atkName), some (dts, defName) =>
          [.replyBox (atkName ++ " is " ++ factorStr et src dts ++
            "x effective against " ++ defName ++ ".")]
        | _, _ => [.thrown]

end PS

namespace PS

/-! ## The `rules` handler (lines 793-815) -/

/-- The room fields touched by `rules`. -/
structure Room where
  title : String := ""
  rulesLink : Option String := none
  hasChatRoomData : Bool := false
  chatRoomDataRulesLink : Option String := none
deriving Repr, DecidableEq

/-- The no-target reply box (lines 797-800); `sanitize` is the external
HTML sanitizer. -/
def rulesNoTargetBox (sanitize : String → String) (room : Room) : String :=
  "Please follow the rules:<br />" ++
  (match room.rulesLink with
   | some l =>
     "- <a href=\"" ++ sanitize l ++ "\">" ++ sanitize room.title ++
       " room rules</a><br />"
   | none => "") ++
  "- <a href=\"http://pokemonshowdown.com/rules\">" ++
    (if room.rulesLink.isSome then "Global rules" else "Rules") ++
    "</a><br /></div>"

/-- The `rules` handler.  `canB` is the broadcast-transition result for the
no-target branch and `canRoommod` the `this.can('roommod', null, room)`
gate for the mutating branch; the gate itself emits its denial notice, the
handler adds nothing.  `target.length` is the JS string length. -/
def rulesCmd (sanitize : String → String) (canB canRoommod : Bool)
    (target : String) (room : Room) : Room × List Reply :=
  if target = "" then
    if canB = false then (room, [])
    else (room, [.replyBox (rulesNoTargetBox sanitize room)])
  else if canRoommod = false then (room, [])
  else if 80 < target.length then
    (room, [.reply "Error: Room rules link is too long (must be under 80 characters). You can use a URL shortener to shorten the link."])
  else
    let room1 := { room with rulesLink := some (jsTrim target) }
    let room2 :=
      if room1.hasChatRoomData then
        { room1 with chatRoomDataRulesLink := room1.rulesLink }
      else room1
    (room2, [.reply ("(The room rules link is now: " ++ target ++ ")")])

/-! ## The `potd` handler (lines 1132-1144) -/

/-- The global config slice mutated by `potd`. -/
structure PotdConfig where
  potd : String := ""
deriving Repr, DecidableEq

/-- Non-reply side effects of `potd`. -/
inductive Effect where
  | simulatorEval (s : String)
  | lobbyAddRaw (s : String)
  | logModCommand (s : String)
deriving Repr, DecidableEq

/-- The `potd` handler: `if (!this.can('potd')) return false;` then the
config mutation, the simulator-process injection, the lobby announcement
(when a lobby exists) and the moderation log line. -/
def potdCmd (hasLobby : Bool) (userName : String) (canPotd : Bool)
    (target : String) (cfg : PotdConfig) : PotdConfig × List Effect :=
  if canPotd = false then (cfg, [])
  else
    let cfg1 : PotdConfig := { potd := target }
    let evalEff := Effect.simulatorEval ("config.potd = \x27" ++ toId target ++ "\x27")
    if target ≠ "" then
      (cfg1, [evalEff] ++
        (if hasLobby then
          [Effect.lobbyAddRaw ("<div class=\"broadcast-blue\"><b>The Pokemon of the Day is now " ++ target ++ "!</b><br />This Pokemon will be guaranteed to show up in random battles.</div>")]
         else []) ++
        [Effect.logModCommand ("The Pokemon of the Day was changed to " ++ target ++ " by " ++ userName ++ ".")])
    else
      (cfg1, [evalEff] ++
        (if hasLobby then
          [Effect.lobbyAddRaw ("<div class=\"broadcast-blue\"><b>The Pokemon of the Day was removed!</b><br />No pokemon will be guaranteed in random battles.</div>")]
         else []) ++
        [Effect.logModCommand ("The Pokemon of the Day was removed by " ++ userName ++ ".")])

/-! ## The `whois` handler (lines 155-208) -/

/-- An alt account as read by the alts loop (already resolved through the
external `Users.get`). -/
structure WUser where
  name : String := ""
  prevNames : List String := []
  group : String := ""
  named : Bool := true
  connected : Bool := true
deriving Repr, DecidableEq

/-- The target user's fields read by `whois`.  `ips` is
`Object.keys(targetUser.ips)` and `roomIds` the keys of `roomCount`, in
insertion order. -/
structure WTarget where
  name : String := ""
  prevNames : List String := []
  group : String := ""
  isSysop : Bool := false
  authenticated : Bool := true
  ips : List String := []
  roomIds : List String := []
deriving Repr, DecidableEq

/-- The invocation environment of `whois`: broadcast state, the two
permission-gate results, whether the target is the invoker, the invoker's
group, the resolved alts, the configured group name, and room privacy. -/
structure WhoisEnv where
  broadcasting : Bool := false
  canAlts : Bool := false
  canIp : Bool := false
  isSelf : Bool := false
  userGroup : String := " "
  alts : List WUser := []
  groupName : Option String := none
  isPrivateRoom : String → Bool := fun _ => false

/-- `if (output) output += ", "; output += s` over a list. -/
def jsCommaJoin (l : List String) : String :=
  l.foldl (fun acc s => if acc ≠ "" then acc ++ ", " ++ s else acc ++ s) ""

/-- The `Previous names:` line, emitted when the join is nonempty. -/
def prevNamesLines (l : List String) : List String :=
  if jsCommaJoin l ≠ "" then ["Previous names: " ++ jsCommaJoin l] else []

/-- The alts loop (lines 171-183). -/
def altLines (userGroup : String) (alts : List WUser) : List String :=
  alts.foldr (fun a acc =>
    if a.named = false ∧ a.connected = false then acc
    else if a.group = "~" ∧ userGroup ≠ "~" then acc
    else ("Alt: " ++ a.name) :: (prevNamesLines a.prevNames ++ acc)) []

/-- The IP line (lines 195-196). -/
def ipLine (ips : List String) : String :=
  "IP" ++ (if 1 < ips.length then "s" else "") ++ ": " ++
    String.intercalate ", " ips

/-- The rooms line (lines 198-206). -/
def roomsLine (isPriv : String → Bool) (ids : List String) : String :=
  (ids.foldl (fun acc i =>
    if i = "global" ∨ isPriv i then acc
    else ((if acc.2 then acc.1 else acc.1 ++ " | ") ++
      "<a href=\"/" ++ i ++ "\" room=\"" ++ i ++ "\">" ++ i ++ "</a>", false))
    ("In rooms: ", true)).1

/-- The reply lines of `whois` for a found target, in emission order.  The
IP line appears only when the invocation is not broadcasting and the
invoker passes the silent `user.can('ip', target)` check or is the target. -/
def whoisLines (env : WhoisEnv) (tu : WTarget) : List String :=
  ["User: " ++ tu.name] ++
  (if env.canAlts then prevNamesLines tu.prevNames ++ altLines env.userGroup env.alts
   else []) ++
  (match env.groupName with
   | some gn => ["Group: " ++ gn ++ " (" ++ tu.group ++ ")"]
   | none => []) ++
  (if tu.isSysop then ["(Pokémon Showdown System Operator)"] else []) ++
  (if tu.authenticated = false then ["(Unregistered)"] else []) ++
  (if env.broadcasting = false ∧ (env.canIp = true ∨ env.isSelf = true)
   then [ipLine tu.ips] else []) ++
  ["|raw|" ++ roomsLine env.isPrivateRoom tu.roomIds]

/-- The `whois` handler: not-found message, or the lines above. -/
def whoisCmd (env : WhoisEnv) (targetUsername : String)
    (found : Option WTarget) : List String :=
  match found with
  | none => ["User " ++ targetUsername ++ " not found."]
  | some tu => whoisLines env tu

end PS

namespace PS

/-! ## The exported command table (the whole object literal, lines 146-1639)

A value is either a redirect string (an alias) or a handler function.  A
duplicate key in a JS object literal keeps its first position but takes
its last value. -/

inductive CmdVal where
  | alias (s : String)
  | fn
deriving Repr, DecidableEq

abbrev CmdTable := List (String × CmdVal)

/-- Property write with JS literal semantics. -/
def setKeyC (m : CmdTable) (k : String) (v : CmdVal) : CmdTable :=
  if m.any (fun p => p.1 = k) then
    m.map (fun p => if p.1 = k then (k, v) else p)
  else m ++ [(k, v)]

/-- Property read. -/
def getKeyC (m : CmdTable) (k : String) : Option CmdVal :=
  (m.find? (fun p => p.1 = k)).map (fun p => p.2)

/-- The key/value pairs of the `exports.commands` literal, in source
order, duplicates included (split into thirds to keep elaboration cheap). -/
def commandsEntries1 : List (String × CmdVal) :=
  [("ip", .alias "whois"), ("getip", .alias "whois"), ("rooms", .alias "whois"),
   ("altcheck", .alias "whois"), ("alt", .alias "whois"), ("alts", .alias "whois"),
   ("getalts", .alias "whois"), ("whois", .fn), ("ipsearch", .fn), ("invite", .fn),
   ("stats", .alias "data"), ("dex", .alias "data"), ("pokedex", .alias "data"),
   ("data", .fn), ("dsearch", .alias "dexsearch"), ("dexsearch", .fn),
   ("learnset", .alias "learn"), ("learnall", .alias "learn"),
   ("learn5", .alias "learn"), ("g6learn", .alias "learn"), ("learn", .fn),
   ("weak", .alias "weakness"), ("weakness", .fn),
   ("eff", .alias "effectiveness"), ("type", .alias "effectiveness"),
   ("matchup", .alias "effectiveness"), ("effectiveness", .fn),
   ("uptime", .fn), ("groups", .fn), ("website", .fn), ("forum", .fn),
   ("opensource", .fn), ("avatars", .fn), ("introduction", .alias "intro"),
   ("intro", .fn), ("mentoring", .alias "smogintro"),
   ("smogonintro", .alias "smogintro"), ("smogintro", .fn),
   ("calculator", .alias "calc"), ("calc", .fn)]

def commandsEntries2 : List (String × CmdVal) :=
  [("cap", .fn), ("gennext", .fn),
   ("om", .alias "othermetas"), ("othermetas", .fn), ("roomhelp", .fn),
   ("restarthelp", .fn), ("rule", .alias "rules"), ("rules", .fn), ("faq", .fn),
   ("banlists", .alias "tiers"), ("tier", .alias "tiers"), ("tiers", .fn),
   ("analysis", .alias "smogdex"), ("strategy", .alias "smogdex"),
   ("smogdex", .fn), ("crymeariver", .fn), ("queenofthecastle", .fn),
   ("crushhiswang", .fn), ("firepunch", .fn), ("lieren", .fn), ("iceblast", .fn),
   ("combatskirts", .fn), ("dexholders", .fn), ("nora", .fn), ("rockshurt", .fn),
   ("owch", .fn), ("treessuck", .fn), ("throw", .fn), ("spoilerwarning", .fn),
   ("iburn", .fn), ("comeatme", .fn), ("wukong", .fn), ("adam", .fn),
   ("ama", .fn), ("kissandmakeup", .fn), ("demon", .fn), ("lyn", .fn),
   ("lucina", .fn), ("birkal", .fn), ("yay", .fn), ("potd", .fn)]

def commandsEntries3 : List (String × CmdVal) :=
  [("roll", .alias "dice"), ("dice", .fn), ("register", .fn),
   ("br", .alias "banredirect"), ("banredirect", .fn), ("lobbychat", .fn),
   ("a", .fn), ("commands", .alias "help"), ("h", .alias "help"),
   ("?", .alias "help"), ("help", .fn),
   ("ruby", .alias "Kari Ruby"), ("ruby", .fn),
   ("lily", .alias "Lily"), ("lily", .fn),
   ("xathoz", .alias "xathoz"), ("xathoz", .fn),
   ("red", .alias "red"), ("red", .fn),
   ("blair", .alias "Blair"), ("blair", .fn),
   ("atom", .alias "Atomsk"), ("atom", .fn),
   ("fluffy", .alias "Fluffy"), ("fluffy", .fn),
   ("lynn", .alias "Lynn"), ("lyzz", .alias "Lynn"), ("lynn", .fn),
   ("cosy", .fn), ("missing1", .alias "missing1"), ("missing1", .fn),
   ("aaron", .alias "Aaron"), ("aaron", .fn),
   ("raven", .alias "Raven"), ("raven", .fn),
   ("kolotos", .alias "kolotos"), ("kolotos", .fn)]

def commandsEntries : List (String × CmdVal) :=
  commandsEntries1 ++ commandsEntries2 ++ commandsEntries3

/-- The table as evaluated: a left fold of property writes. -/
def commandsTable : CmdTable :=
  commandsEntries.foldl (fun m p => setKeyC m p.1 p.2) []

/-- Does a redirect value name a key whose value is a handler function? -/
def aliasResolves (m : CmdTable) (s : String) : Bool :=
  m.any (fun q => q.1 = s && q.2 = CmdVal.fn)

end PS

namespace PS

/-! ## Helper lemmas about the boolean maps -/

theorem getKey_true_mem {m : BMap} {r : String} (h : getKey m r = some true) :
    (r, true) ∈ m.filter (fun p => p.2 = true) := by
  unfold getKey at h
  cases hf : m.find? (fun p => p.1 = r) with
  | none => simp [hf] at h
  | some q =>
    have hq1 : q.1 = r := by
      have := List.find?_some hf
      simpa using this
    have hq2 : q.2 = true := by simp [hf] at h; exact h
    have hmem : q ∈ m := List.mem_of_find?_eq_some hf
    have : q = (r, true) := by
      cases q; simp_all
    rw [← this]
    exact List.mem_filter.mpr ⟨hmem, by simp [hq2]⟩

theorem mem_types_of_lookups {m : BMap} {ts : List String} {a b r : String}
    (h2 : countTrue m = 2) (hnd : ts.Nodup)
    (h0 : ts.get? 0 = some a) (h1 : ts.get? 1 = some b)
    (ha : getKey m a = some true) (hb : getKey m b = some true)
    (hr : getKey m r = some true) : r ∈ ts := by
  have hane : a ≠ b := by
    match ts, h0, h1 with
    | x :: y :: rest, h0, h1 =>
      simp at h0 h1
      subst h0; subst h1
      intro hcon
      rw [hcon] at hnd
      exact (List.nodup_cons.mp hnd).1 (by simp)
  have hamem : a ∈ ts := by
    have := List.get?_mem h0; exact this
  have hbmem : b ∈ ts := by
    have := List.get?_mem h1; exact this
  have hfa := getKey_true_mem ha
  have hfb := getKey_true_mem hb
  have hfr := getKey_true_mem hr
  unfold countTrue at h2
  obtain ⟨u, v, huv⟩ := List.length_eq_two.mp h2
  rw [huv] at hfa hfb hfr
  simp at hfa hfb hfr
  rcases hfr with hr1 | hr2
  · rcases hfb with hb1 | hb2
    · rcases hfa with ha1 | ha2
      · exact absurd (congrArg Prod.fst (ha1.trans hb1.symm)) hane
      · have hrb : r = b := congrArg Prod.fst (hr1.trans hb1.symm)
        rw [hrb]; exact hbmem
    · rcases hfa with ha1 | ha2
      · have hra : r = a := congrArg Prod.fst (hr1.trans ha1.symm)
        rw [hra]; exact hamem
      · exact absurd (congrArg Prod.fst (ha2.trans hb2.symm)) hane
  · rcases hfa with ha1 | ha2
    · rcases hfb with hb1 | hb2
      · exact absurd (congrArg Prod.fst (ha1.trans hb1.symm)) hane
      · have hrb : r = b := congrArg Prod.fst (hr2.trans hb2.symm)
        rw [hrb]; exact hbmem
    · have hra : r = a := congrArg Prod.fst (hr2.trans ha2.symm)
      rw [hra]; exact hamem

end PS

namespace PS

/-- C1: for a search spec whose `types` map marks exactly two types as
required, every entry surviving the types pass has both required types
among its (up to two) types, and every entry lacking either required type
is removed by the pass. -/
theorem dexsearch_types_two_required (m : BMap) (dex : List (String × Template))
    (h2 : countTrue m = 2) (hT : ∀ p ∈ dex, (p.2).types.Nodup) :
    (∀ p ∈ typesPass m dex, ∀ r, getKey m r = some true → r ∈ p.2.types) ∧
    (∀ p ∈ dex, ∀ r, getKey m r = some true → r ∉ p.2.types →
      p ∉ typesPass m dex) := by
  have core : ∀ p, p ∈ dex → p ∈ typesPass m dex →
      ∀ r, getKey m r = some true → r ∈ p.2.types := by
    intro p hmem hp r hr
    unfold typesPass at hp
    rw [if_pos h2] at hp
    have hcond := (List.mem_filter.mp hp).2
    simp only [decide_eq_true_eq] at hcond
    obtain ⟨hL0, hL1⟩ := hcond
    cases h0 : p.2.types.get? 0 with
    | none => rw [h0] at hL0; simp [lookupTypeKey] at hL0
    | some a =>
      cases h1 : p.2.types.get? 1 with
      | none => rw [h1] at hL1; simp [lookupTypeKey] at hL1
      | some b =>
        rw [h0] at hL0; rw [h1] at hL1
        simp only [lookupTypeKey] at hL0 hL1
        exact mem_types_of_lookups h2 (hT p hmem) h0 h1 hL0 hL1 hr
  constructor
  · intro p hp r hr
    have hmem : p ∈ dex := by
      unfold typesPass at hp
      rw [if_pos h2] at hp
      exact (List.mem_filter.mp hp).1
    exact core p hmem hp r hr
  · intro p hp r hr hrn hcon
    exact hrn (core p hp hcon r hr)

/-- Concrete instantiation of `dexsearch_types_two_required`. -/
def c1Spec : BMap := [("Fire", true), ("Water", true)]

/-- A two-type entry used by the C1 witness. -/
def c1Entry : Template := { species := "Volcanion", types := ["Fire", "Water"] }

/-- The dex used by the C1 witness. -/
def c1Dex : List (String × Template) :=
  [("volcanion", c1Entry),
   ("charizard", { species := "Charizard", types := ["Fire", "Flying"] })]

/-- Witness for C1 at a concrete spec and dex. -/
theorem dexsearch_types_two_required_witness : "Water" ∈ c1Entry.types :=
  (dexsearch_types_two_required c1Spec c1Dex (by decide) (by decide)).1
    ("volcanion", c1Entry) (by decide) "Water" (by decide)

end PS

namespace PS

theorem countTrue_cons (p : String × Bool) (m : BMap) :
    countTrue (p :: m) = (if p.2 = true then 1 else 0) + countTrue m := by
  unfold countTrue
  cases hp : p.2 <;> simp [List.filter_cons, hp, Nat.add_comm]

theorem countTrue_append (m n : BMap) :
    countTrue (m ++ n) = countTrue m + countTrue n := by
  unfold countTrue
  simp [List.filter_append]

theorem map_no_key_id {m : BMap} {k : String} {v : Bool}
    (h : ∀ q ∈ m, q.1 ≠ k) :
    m.map (fun p => if p.1 = k then (k, v) else p) = m := by
  induction m with
  | nil => rfl
  | cons p rest ih =>
    have hp : p.1 ≠ k := h p (by simp)
    simp only [List.map_cons, if_neg hp]
    rw [ih (fun q hq => h q (by simp [hq]))]

theorem keys_map_update (m : BMap) (k : String) (v : Bool) :
    (m.map (fun p => if p.1 = k then (k, v) else p)).map Prod.fst =
      m.map Prod.fst := by
  induction m with
  | nil => rfl
  | cons p rest ih =>
    by_cases hp : p.1 = k <;> simp [hp, ih]

theorem keys_setKey (m : BMap) (k : String) (v : Bool) :
    (setKey m k v).map Prod.fst =
      if m.any (fun p => p.1 = k) then m.map Prod.fst
      else m.map Prod.fst ++ [k] := by
  unfold setKey
  split
  · exact keys_map_update m k v
  · simp

theorem nodup_keys_setKey {m : BMap} {k : String} {v : Bool}
    (h : (m.map Prod.fst).Nodup) : ((setKey m k v).map Prod.fst).Nodup := by
  rw [keys_setKey]
  split
  · exact h
  · rename_i hany
    have hk : k ∉ m.map Prod.fst := by
      intro hmem
      obtain ⟨q, hq, hq1⟩ := List.mem_map.mp hmem
      exact hany (List.any_eq_true.mpr ⟨q, hq, by simp [hq1]⟩)
    simp [List.nodup_append, h, hk]

theorem countTrue_map_update_false (m : BMap) (k : String) :
    countTrue (m.map (fun p => if p.1 = k then (k, false) else p)) ≤
      countTrue m := by
  induction m with
  | nil => simp [countTrue]
  | cons p rest ih =>
    by_cases hp : p.1 = k
    · simp only [List.map_cons, if_pos hp]
      rw [countTrue_cons, countTrue_cons]
      have := ih
      cases hp2 : p.2 <;> simp [hp2] <;> omega
    · simp only [List.map_cons, if_neg hp]
      rw [countTrue_cons, countTrue_cons]
      have := ih
      omega

theorem countTrue_map_update_true {m : BMap} {k : String}
    (hnd : (m.map Prod.fst).Nodup) :
    countTrue (m.map (fun p => if p.1 = k then (k, true) else p)) ≤
      countTrue m + 1 := by
  induction m with
  | nil => simp [countTrue]
  | cons p rest ih =>
    simp only [List.map_cons, List.nodup_cons] at hnd
    by_cases hp : p.1 = k
    · have hrest : ∀ q ∈ rest, q.1 ≠ k := by
        intro q hq hqk
        exact hnd.1 (hp ▸ hqk ▸ List.mem_map_of_mem Prod.fst hq)
      simp only [List.map_cons, if_pos hp]
      rw [map_no_key_id hrest]
      rw [countTrue_cons, countTrue_cons]
      cases hp2 : p.2
      · simp [hp2]
        omega
      · simp [hp2]
    · simp only [List.map_cons, if_neg hp]
      rw [countTrue_cons, countTrue_cons]
      have := ih hnd.2
      omega

theorem countTrue_setKey_false {m : BMap} {k : String} :
    countTrue (setKey m k false) ≤ countTrue m := by
  unfold setKey
  split
  · exact countTrue_map_update_false m k
  · rw [countTrue_append]
    simp [countTrue]

theorem countTrue_setKey_true {m : BMap} {k : String}
    (hnd : (m.map Prod.fst).Nodup) :
    countTrue (setKey m k true) ≤ countTrue m + 1 := by
  unfold setKey
  split
  · exact countTrue_map_update_true hnd
  · rw [countTrue_append]
    simp [countTrue]

end PS

namespace PS

/-- The parse-state invariant maintained by the token loop: keys of the
arity-limited categories stay distinct, and the number of positively
required values respects each limit. -/
def parseInv (st : Searches) : Prop :=
  (st.ability.map Prod.fst).Nodup ∧ (st.types.map Prod.fst).Nodup ∧
  (st.moves.map Prod.fst).Nodup ∧
  countTrue st.ability ≤ 1 ∧ countTrue st.types ≤ 2 ∧ countTrue st.moves ≤ 4

theorem parseMoveBranch_inv {tools : ToolsData} {st st' : Searches}
    {isNot : Bool} {target : String}
    (h : parseMoveBranch tools st isNot target = .ok st')
    (hinv : parseInv st) : parseInv st' := by
  obtain ⟨hna, hnt, hnm, hca, hct, hcm⟩ := hinv
  cases hg : getMoveName tools target with
  | none =>
    simp only [parseMoveBranch, hg] at h
    exact Except.noConfusion h
  | some mName =>
    simp only [parseMoveBranch, hg] at h
    split at h
    · exact Except.noConfusion h
    · rename_i hc
      injection h with h'
      subst h'
      refine ⟨hna, hnt, nodup_keys_setKey hnm, hca, hct, ?_⟩
      cases hn : isNot with
      | true =>
        simp only [Bool.not_true]
        exact le_trans countTrue_setKey_false hcm
      | false =>
        simp only [Bool.not_false]
        rw [hn] at hc
        have hne : countTrue st.moves ≠ 4 := fun hcon => hc ⟨hcon, rfl⟩
        calc countTrue (setKey st.moves mName true) ≤ countTrue st.moves + 1 :=
              countTrue_setKey_true hnm
          _ ≤ 4 := by omega

theorem parseTokenTail_inv {tools : ToolsData} {b : Bool} {st st' : Searches}
    {isNot : Bool} {target : String}
    (h : parseTokenTail tools b st isNot target = .ok st')
    (hinv : parseInv st) : parseInv st' := by
  obtain ⟨hna, hnt, hnm, hca, hct, hcm⟩ := hinv
  unfold parseTokenTail at h
  split at h
  · injection h with h'
    subst h'
    exact ⟨hna, hnt, hnm, hca, hct, hcm⟩
  · split at h
    · injection h with h'
      subst h'
      exact ⟨hna, hnt, hnm, hca, hct, hcm⟩
    · split at h
      · injection h with h'
        subst h'
        exact ⟨hna, hnt, hnm, hca, hct, hcm⟩
      · split at h
        · split at h
          · exact Except.noConfusion h
          · injection h with h'
            subst h'
            exact ⟨hna, hnt, hnm, hca, hct, hcm⟩
        · split at h
          · injection h with h'
            subst h'
            exact ⟨hna, hnt, hnm, hca, hct, hcm⟩
          · cases hidx : strIdxOf target " type" with
            | some i =>
              simp only [hidx] at h
              split at h
              · split at h
                · exact Except.noConfusion h
                · rename_i hw hc
                  injection h with h'
                  subst h'
                  refine ⟨hna, nodup_keys_setKey hnt, hnm, hca, ?_, hcm⟩
                  cases hn : isNot with
                  | true =>
                    simp only [Bool.not_true]
                    exact le_trans countTrue_setKey_false hct
                  | false =>
                    simp only [Bool.not_false]
                    rw [hn] at hc
                    have hne : countTrue st.types ≠ 2 := fun hcon => hc ⟨hcon, rfl⟩
                    calc countTrue (setKey st.types _ true) ≤ countTrue st.types + 1 :=
                          countTrue_setKey_true hnt
                      _ ≤ 2 := by omega
              · exact parseMoveBranch_inv h ⟨hna, hnt, hnm, hca, hct, hcm⟩
            | none =>
              simp only [hidx] at h
              exact parseMoveBranch_inv h ⟨hna, hnt, hnm, hca, hct, hcm⟩

theorem parseToken_inv {tools : ToolsData} {b : Bool} {st st' : Searches}
    {tok : String} (h : parseToken tools b st tok = .ok st')
    (hinv : parseInv st) : parseInv st' := by
  obtain ⟨hna, hnt, hnm, hca, hct, hcm⟩ := hinv
  cases hab : getAbilityName tools tok with
  | some aName =>
    simp only [parseToken, hab] at h
    split at h
    · exact Except.noConfusion h
    · rename_i hc
      injection h with h'
      subst h'
      refine ⟨nodup_keys_setKey hna, hnt, hnm, ?_, hct, hcm⟩
      cases hn : startsBang (lowerStr (jsTrim tok)) with
      | true =>
        simp only [Bool.not_true]
        exact le_trans countTrue_setKey_false hca
      | false =>
        simp only [Bool.not_false]
        rw [hn] at hc
        have hne : countTrue st.ability ≠ 1 := fun hcon => hc ⟨hcon, rfl⟩
        calc countTrue (setKey st.ability aName true) ≤ countTrue st.ability + 1 :=
              countTrue_setKey_true hna
          _ ≤ 1 := by omega
  | none =>
    simp only [parseToken, hab] at h
    exact parseTokenTail_inv h ⟨hna, hnt, hnm, hca, hct, hcm⟩

theorem parseTokensAux_inv {tools : ToolsData} {b : Bool} :
    ∀ {toks : List String} {st st' : Searches},
      parseTokensAux tools b st toks = .ok st' → parseInv st → parseInv st'
  | [], st, st', h, hinv => by
    unfold parseTokensAux at h
    injection h with h'
    exact h' ▸ hinv
  | tok :: rest, st, st', h, hinv => by
    unfold parseTokensAux at h
    cases hp : parseToken tools b st tok with
    | error e =>
      simp only [hp] at h
      exact Except.noConfusion h
    | ok st1 =>
      simp only [hp] at h
      exact parseTokensAux_inv h (parseToken_inv hp hinv)

end PS

namespace PS

/-- A parse failure makes `dexsearch` reply with the failure message and
nothing else: no dex is built and no pass runs. -/
theorem dexsearchBody_parse_error (tools : ToolsData) (catalog : Catalog)
    (lcB : List String) (b : Bool) (shuffle : List String → List String)
    {target e : String} (h0 : target ≠ "")
    (he : parseTokens tools b (jsSplit (fun c => c = ',') target) = .error e) :
    dexsearchBody tools catalog lcB b shuffle target = .reply e := by
  unfold dexsearchBody
  rw [if_neg h0]
  simp only [he]

/-- C7: during parsing, more than one positively required ability, more
than two positively required types, or more than four positively required
moves is impossible in a successfully parsed spec — exceeding a limit is a
parse failure — and a parse failure aborts the command with the failure
message before any filtering. -/
theorem dexsearch_arity_limits :
    (∀ (tools : ToolsData) (b : Bool) (toks : List String) (st' : Searches),
      parseTokens tools b toks = .ok st' →
      countTrue st'.ability ≤ 1 ∧ countTrue st'.types ≤ 2 ∧
        countTrue st'.moves ≤ 4) ∧
    (∀ (tools : ToolsData) (catalog : Catalog) (lcB : List String) (b : Bool)
      (shuffle : List String → List String) (target e : String), target ≠ "" →
      parseTokens tools b (jsSplit (fun c => c = ',') target) = .error e →
      dexsearchBody tools catalog lcB b shuffle target = .reply e) := by
  constructor
  · intro tools b toks st' h
    have hinv0 : parseInv ({} : Searches) := by
      refine ⟨?_, ?_, ?_, ?_, ?_, ?_⟩ <;> simp [countTrue]
    have := parseTokensAux_inv h hinv0
    exact ⟨this.2.2.2.1, this.2.2.2.2.1, this.2.2.2.2.2⟩
  · intro tools catalog lcB b shuffle target e h0 he
    exact dexsearchBody_parse_error tools catalog lcB b shuffle h0 he

/-- The tools used by the C7 witness. -/
def w7Tools : ToolsData := { abilities := [], typeChart := ["Fire"], moves := [] }

/-- The parsed spec of the C7 witness. -/
def w7Spec : Searches := { types := [("Fire", true)] }

/-- Witness for C7: a one-type query parses within all three limits, and a
bad query aborts with its message. -/
theorem dexsearch_arity_limits_witness :
    (countTrue w7Spec.ability ≤ 1 ∧ countTrue w7Spec.types ≤ 2 ∧
      countTrue w7Spec.moves ≤ 4) ∧
    dexsearchBody w7Tools [] [] false id "xyzzy" =
      .reply (unknownTokenMsg "xyzzy") :=
  ⟨dexsearch_arity_limits.1 w7Tools false ["fire type"] w7Spec (by rfl),
   dexsearch_arity_limits.2 w7Tools [] [] false id "xyzzy"
     (unknownTokenMsg "xyzzy") (by decide) (by rfl)⟩

end PS

namespace PS

/-- The trimmed, lowercased, `'!'`-stripped form of a raw token, as
computed at the top of the token loop. -/
def normTok (rawTok : String) : String :=
  let lowered := lowerStr (jsTrim rawTok)
  let isNot := startsBang lowered
  if isNot then dropOne lowered else lowered

/-- The `' type'` transformation applied to a normalized token, when any. -/
def finalOfTarget (target : String) : String :=
  match strIdxOf target " type" with
  | some i => typePhrase target i
  | none => target

/-- The string the unknown-token message quotes for a raw token. -/
def finalTok (rawTok : String) : String := finalOfTarget (normTok rawTok)

/-- The generation-digit test of the classification chain. -/
def genDigitB (s : String) : Bool :=
  match jsParseInt s with
  | some n => decide (0 < n ∧ n < 7)
  | none => false

/-- Does the token classify as a `'<word> type'` phrase over a known type? -/
def typeWordMatch (tools : ToolsData) (target : String) : Bool :=
  match strIdxOf target " type" with
  | some i => decide (typePhrase target i ∈ tools.typeChart)
  | none => false

theorem parseTokenTail_unknown (tools : ToolsData) (b : Bool) (st : Searches)
    (isNot : Bool) (target : String)
    (h1 : target ∉ allTiers) (h2 : target ∉ allColours)
    (h3 : genDigitB target = false) (h4 : target ≠ "all")
    (h5 : ¬(target = "megas" ∨ target = "mega"))
    (h6 : typeWordMatch tools target = false)
    (h7 : getMoveName tools (finalOfTarget target) = none) :
    parseTokenTail tools b st isNot target =
      .error (unknownTokenMsg (finalOfTarget target)) := by
  unfold parseTokenTail
  rw [if_neg h1, if_neg h2]
  rw [if_neg (by simpa [genDigitB] using h3)]
  rw [if_neg h4, if_neg h5]
  cases hidx : strIdxOf target " type" with
  | some i =>
    simp only [hidx]
    have hw : typePhrase target i ∉ tools.typeChart := by
      simpa [typeWordMatch, hidx] using h6
    rw [if_neg hw]
    have h7' : getMoveName tools (typePhrase target i) = none := by
      simpa [finalOfTarget, hidx] using h7
    simp only [parseMoveBranch, h7']
    simp [finalOfTarget, hidx]
  | none =>
    simp only [hidx]
    have h7' : getMoveName tools target = none := by
      simpa [finalOfTarget, hidx] using h7
    simp only [parseMoveBranch, h7']
    simp [finalOfTarget, hidx]

/-- C5: a token matching no category is a hard parse failure naming the
offending token (in its normalized form; a `'<word> type'` token is quoted
as the transformed word), the loop stops at it, a parse failure makes the
whole command reply with only the failure message, a move key that fails
to resolve during the moves pass aborts that pass with a message naming
the move, and such an evaluation failure is the command's only reply. -/
theorem dexsearch_unknown_token_aborts :
    (∀ (tools : ToolsData) (b : Bool) (st : Searches) (rawTok : String)
      (restT : List String),
      getAbilityName tools rawTok = none →
      normTok rawTok ∉ allTiers →
      normTok rawTok ∉ allColours →
      genDigitB (normTok rawTok) = false →
      normTok rawTok ≠ "all" →
      ¬(normTok rawTok = "megas" ∨ normTok rawTok = "mega") →
      typeWordMatch tools (normTok rawTok) = false →
      getMoveName tools (finalTok rawTok) = none →
      parseTokensAux tools b st (rawTok :: restT) =
        .error (unknownTokenMsg (finalTok rawTok))) ∧
    (∀ (tools : ToolsData) (catalog : Catalog) (lcB : List String) (b : Bool)
      (shuffle : List String → List String) (target e : String), target ≠ "" →
      parseTokens tools b (jsSplit (fun c => c = ',') target) = .error e →
      dexsearchBody tools catalog lcB b shuffle target = .reply e) ∧
    (∀ (tools : ToolsData) (ls : List String) (f : EntryFate) (name : String)
      (need : Bool) (rest : BMap),
      getMoveName tools name = none →
      moveFold tools ls f ((name, need) :: rest) =
        .error ("\"" ++ name ++ "\" is not a known move.")) ∧
    (∀ (tools : ToolsData) (catalog : Catalog) (lcB : List String) (b : Bool)
      (shuffle : List String → List String) (target : String) (st : Searches)
      (e : String), target ≠ "" →
      parseTokens tools b (jsSplit (fun c => c = ',') target) = .ok st →
      ¬(st.showAll = true ∧ sizeSearches st = 0 ∧ st.megaSearch = none) →
      runPasses tools catalog lcB st (buildDex catalog st) = .error e →
      dexsearchBody tools catalog lcB b shuffle target = .replyBox e) := by
  refine ⟨?_, ?_, ?_, ?_⟩
  · intro tools b st rawTok restT hab h1 h2 h3 h4 h5 h6 h7
    have hp : parseToken tools b st rawTok =
        .error (unknownTokenMsg (finalTok rawTok)) := by
      simp only [parseToken, hab]
      exact parseTokenTail_unknown tools b st _ (normTok rawTok) h1 h2 h3 h4 h5 h6 h7
    simp only [parseTokensAux, hp]
  · intro tools catalog lcB b shuffle target e h0 he
    exact dexsearchBody_parse_error tools catalog lcB b shuffle h0 he
  · intro tools ls f name need rest hg
    simp only [moveFold, hg]
  · intro tools catalog lcB b shuffle target st e h0 hok hnall herr
    unfold dexsearchBody
    rw [if_neg h0]
    simp only [hok]
    rw [if_neg hnall]
    simp only [herr]

/-- Witness for C5: the token `"tapu"` (Scenario 2 of the spec) matches no
category and aborts the loop with the message quoting it. -/
theorem dexsearch_unknown_token_aborts_witness :
    parseTokensAux { abilities := [], typeChart := [], moves := [] } false {}
      ["tapu"] = .error (unknownTokenMsg (finalTok "tapu")) :=
  dexsearch_unknown_token_aborts.1 _ false {} "tapu" [] (by rfl) (by decide)
    (by decide) (by rfl) (by decide) (by decide) (by rfl) (by rfl)

end PS

namespace PS

theorem insertSorted_perm (s : String) (l : List String) :
    (insertSorted s l).Perm (s :: l) := by
  induction l with
  | nil => simp [insertSorted]
  | cons t ts ih =>
    unfold insertSorted
    split
    · exact List.Perm.refl _
    · exact (List.Perm.cons t ih).trans (List.Perm.swap s t ts)

theorem insertSorted_sorted (s : String) {l : List String}
    (h : l.Sorted (· ≤ ·)) : (insertSorted s l).Sorted (· ≤ ·) := by
  induction l with
  | nil => simp [insertSorted]
  | cons t ts ih =>
    unfold insertSorted
    split
    · rename_i hst
      refine List.sorted_cons.mpr ⟨?_, h⟩
      intro b hb
      rcases List.mem_cons.mp hb with hb1 | hb2
      · exact hb1 ▸ hst
      · exact le_trans hst ((List.sorted_cons.mp h).1 b hb2)
    · rename_i hst
      have hts : ts.Sorted (· ≤ ·) := (List.sorted_cons.mp h).2
      refine List.sorted_cons.mpr ⟨?_, ih hts⟩
      intro b hb
      have hmem := (insertSorted_perm s ts).mem_iff.mp hb
      rcases List.mem_cons.mp hmem with hb1 | hb2
      · exact hb1 ▸ le_of_not_le hst
      · exact (List.sorted_cons.mp h).1 b hb2

theorem jsSort_perm (l : List String) : (jsSort l).Perm l := by
  induction l with
  | nil => simp [jsSort]
  | cons s ss ih =>
    unfold jsSort
    exact (insertSorted_perm s (jsSort ss)).trans (List.Perm.cons s ih)

theorem jsSort_sorted (l : List String) : (jsSort l).Sorted (· ≤ ·) := by
  induction l with
  | nil => simp [jsSort]
  | cons s ss ih =>
    unfold jsSort
    exact insertSorted_sorted s ih

/-- C3: with `all` requested or at most 10 results, the reply is the
lexicographically sorted names with no further-matches hint; otherwise it
is exactly 10 names of the shuffled list plus a hint naming `total − 10`
and how to request all results; and the success path of the command
replies with exactly this string. -/
theorem dexsearch_output_cap :
    (∀ (showAll : Bool) (results shuffled : List String), results ≠ [] →
      (showAll = true ∨ results.length ≤ 10) →
      formatResults showAll shuffled results =
        String.intercalate ", " (jsSort results) ∧
      (jsSort results).Sorted (· ≤ ·) ∧ (jsSort results).Perm results) ∧
    (∀ (showAll : Bool) (results shuffled : List String),
      shuffled.Perm results → showAll = false → 10 < results.length →
      formatResults showAll shuffled results =
        String.intercalate ", " (shuffled.take 10) ++
          furtherMatchesHint (results.length - 10) ∧
      (shuffled.take 10).length = 10) ∧
    (∀ (tools : ToolsData) (catalog : Catalog) (lcB : List String) (b : Bool)
      (shuffle : List String → List String) (target : String) (st : Searches)
      (dexF : List (String × Template)), target ≠ "" →
      parseTokens tools b (jsSplit (fun c => c = ',') target) = .ok st →
      ¬(st.showAll = true ∧ sizeSearches st = 0 ∧ st.megaSearch = none) →
      runPasses tools catalog lcB st (buildDex catalog st) = .ok dexF →
      dexsearchBody tools catalog lcB b shuffle target =
        .replyBox (formatResults st.showAll
          (shuffle (dexF.map (fun p => p.2.species)))
          (dexF.map (fun p => p.2.species)))) := by
  refine ⟨?_, ?_, ?_⟩
  · intro showAll results shuffled hne hcap
    refine ⟨?_, jsSort_sorted results, jsSort_perm results⟩
    unfold formatResults
    rw [if_pos (List.length_pos.mpr hne), if_pos hcap]
  · intro showAll results shuffled hp hall hlen
    constructor
    · unfold formatResults
      have hne : 0 < results.length := by omega
      have hcond : ¬(showAll = true ∨ results.length ≤ 10) := by
        intro h
        rcases h with h | h
        · rw [hall] at h; exact Bool.noConfusion h
        · omega
      rw [if_pos hne, if_neg hcond]
    · rw [List.length_take]
      have := hp.length_eq
      omega
  · intro tools catalog lcB b shuffle target st dexF h0 hok hnall hrun
    unfold dexsearchBody
    rw [if_neg h0]
    simp only [hok]
    rw [if_neg hnall]
    simp only [hrun]

end PS

namespace PS

/-- Eleven results for the C3 witness. -/
def c3Results : List String :=
  ["K", "A", "B", "C", "D", "E", "F", "G", "H", "I", "J"]

/-- A shuffle of `c3Results`. -/
def c3Shuffled : List String :=
  ["J", "K", "A", "B", "C", "D", "E", "F", "G", "H", "I"]

/-- Witness for C3 at an 11-element result list without `all`. -/
theorem dexsearch_output_cap_witness :
    formatResults false c3Shuffled c3Results =
      String.intercalate ", " (c3Shuffled.take 10) ++
        furtherMatchesHint (c3Results.length - 10) ∧
    (c3Shuffled.take 10).length = 10 :=
  dexsearch_output_cap.2.1 false c3Results c3Shuffled (by decide) rfl (by decide)

/-- C8: a handler that consults `canBroadcast` returns immediately when the
transition fails: `data` and `dexsearch` emit nothing at all, and
`effectiveness` — whose broadcast check sits after target resolution —
emits nothing once the resolution loop has completed.  None of the three
touches any state. -/
theorem canBroadcast_failure_aborts :
    (∀ (target : String) (newTargets : Option (List DataHit)) (aliasHit : Bool),
      dataCmd false target newTargets aliasHit = []) ∧
    (∀ (tools : ToolsData) (catalog : Catalog) (lcB : List String) (b : Bool)
      (shuffle : List String → List String) (target : String),
      dexsearchCmd tools catalog lcB false b shuffle target = []) ∧
    (∀ (et : EffTools) (target : String) (res),
      ((jsSplit (fun c => c = ',' || c = '/') target).take 2).length = 2 →
      effLoop et (none, none, allMethodsL)
        ((jsSplit (fun c => c = ',' || c = '/') target).take 2) = some res →
      effectivenessCmd et false target = []) := by
  refine ⟨?_, ?_, ?_⟩
  · intro target newTargets aliasHit
    rfl
  · intro tools catalog lcB b shuffle target
    rfl
  · intro et target res hlen hloop
    unfold effectivenessCmd
    rw [if_neg (by simp [hlen])]
    simp only [hloop]
    simp

/-- Tools for the C8 witness: every name resolves as a type. -/
def w8Tools : EffTools :=
  { getTypeF := fun s => some { id := s, name := s },
    getMoveF := fun _ => none,
    getTemplateF := fun _ => none,
    getImmunityP := fun _ _ => true,
    getEffectivenessP := fun _ _ => 0 }

/-- Witness for C8 at a two-target `effectiveness` invocation. -/
theorem canBroadcast_failure_aborts_witness :
    effectivenessCmd w8Tools false "a,b" = [] :=
  canBroadcast_failure_aborts.2.2 w8Tools "a,b"
    ((some (Sum.inr "a", "a"), some (["b"], "b"))) (by rfl) (by rfl)

/-- C9: when the permission gate denies, `rules` with a target leaves the
room (and its rules link) unchanged and emits nothing, and `potd` leaves
the config unchanged and emits nothing; the single denial notice is the
gate's own. -/
theorem permission_denied_atomic :
    (∀ (sanitize : String → String) (canB : Bool) (target : String)
      (room : Room), target ≠ "" →
      rulesCmd sanitize canB false target room = (room, [])) ∧
    (∀ (hasLobby : Bool) (userName target : String) (cfg : PotdConfig),
      potdCmd hasLobby userName false target cfg = (cfg, [])) := by
  constructor
  · intro sanitize canB target room h0
    unfold rulesCmd
    rw [if_neg h0]
    rfl
  · intro hasLobby userName target cfg
    rfl

/-- Witness for C9 at a concrete room and target. -/
theorem permission_denied_atomic_witness :
    rulesCmd id true false "http://example.com/rules"
        { title := "Lobby", rulesLink := some "old" } =
      ({ title := "Lobby", rulesLink := some "old" }, []) ∧
    potdCmd true "admin" false "Pikachu" { potd := "" } = ({ potd := "" }, []) :=
  ⟨permission_denied_atomic.1 id true "http://example.com/rules"
      { title := "Lobby", rulesLink := some "old" } (by decide),
   permission_denied_atomic.2 true "admin" "Pikachu" { potd := "" }⟩

end PS

namespace PS

theorem strDataAppend (a b : String) : (a ++ b).data = a.data ++ b.data := rfl

theorem notIPPrefix_of_head {c : Char} (hc : c ≠ 'I') (cs : List Char) :
    isPrefixList "IP".data (c :: cs) = false := by
  have h2 : "IP".data = ['I', 'P'] := rfl
  rw [h2]
  simp [isPrefixList, Ne.symm hc]

theorem notIP_head_append (a b : String) {c : Char} {cs : List Char}
    (ha : a.data = c :: cs) (hc : c ≠ 'I') :
    isPrefixList "IP".data (a ++ b).data = false := by
  rw [strDataAppend, ha]
  simpa using notIPPrefix_of_head hc (cs ++ b.data)

theorem prevNamesLines_shape (xs : List String) :
    ∀ l ∈ prevNamesLines xs, ∃ x, l = "Previous names: " ++ x := by
  intro l hl
  unfold prevNamesLines at hl
  split at hl
  · rcases List.mem_singleton.mp hl with rfl
    exact ⟨jsCommaJoin xs, rfl⟩
  · exact absurd hl (List.not_mem_nil l)

theorem altLines_shape (g : String) (alts : List WUser) :
    ∀ l ∈ altLines g alts,
      (∃ x, l = "Alt: " ++ x) ∨ (∃ x, l = "Previous names: " ++ x) := by
  induction alts with
  | nil => intro l hl; exact absurd hl (List.not_mem_nil l)
  | cons a rest ih =>
    intro l hl
    unfold altLines at hl
    simp only [List.foldr_cons] at hl
    split at hl
    · exact ih l hl
    · split at hl
      · exact ih l hl
      · rcases List.mem_cons.mp hl with rfl | hl2
        · exact Or.inl ⟨a.name, rfl⟩
        · rcases List.mem_append.mp hl2 with hl3 | hl4
          · exact Or.inr (prevNamesLines_shape a.prevNames l hl3)
          · exact ih l hl4

/-- C10: the `whois` reply contains the IP line exactly when the
invocation is not broadcasting and the invoker holds the `ip` capability
over the target or is the target; in particular a broadcast `whois` is
independent of the target's IP set and none of its lines begins with
`"IP"`. -/
theorem whois_ip_guard :
    (∀ (env : WhoisEnv) (tu : WTarget) (ips1 ips2 : List String),
      env.broadcasting = true →
      whoisLines env { tu with ips := ips1 } =
        whoisLines env { tu with ips := ips2 }) ∧
    (∀ (env : WhoisEnv) (tu : WTarget), env.broadcasting = false →
      (env.canIp = true ∨ env.isSelf = true) →
      ipLine tu.ips ∈ whoisLines env tu) ∧
    (∀ (env : WhoisEnv) (tu : WTarget) (l : String),
      env.broadcasting = true ∨ (env.canIp = false ∧ env.isSelf = false) →
      l ∈ whoisLines env tu → isPrefixList "IP".data l.data = false) := by
  refine ⟨?_, ?_, ?_⟩
  · intro env tu ips1 ips2 hb
    unfold whoisLines
    rw [hb]
    simp
  · intro env tu hb hcan
    have hmem : ipLine tu.ips ∈ (if env.broadcasting = false ∧
        (env.canIp = true ∨ env.isSelf = true) then [ipLine tu.ips] else []) := by
      rw [if_pos ⟨hb, hcan⟩]
      exact List.mem_singleton_self _
    unfold whoisLines
    exact List.mem_append.mpr (Or.inl (List.mem_append.mpr (Or.inr hmem)))
  · intro env tu l hno hl
    unfold whoisLines at hl
    have hcond : ¬(env.broadcasting = false ∧
        (env.canIp = true ∨ env.isSelf = true)) := by
      rcases hno with h | ⟨h1, h2⟩
      · rintro ⟨hb, -⟩
        rw [h] at hb
        exact Bool.noConfusion hb
      · rintro ⟨-, hc | hc⟩
        · rw [h1] at hc; exact Bool.noConfusion hc
        · rw [h2] at hc; exact Bool.noConfusion hc
    rw [if_neg hcond] at hl
    simp only [List.append_assoc, List.mem_append, List.mem_cons,
      List.not_mem_nil, or_false, List.mem_singleton] at hl
    rcases hl with rfl | hl
    · exact notIP_head_append "User: " tu.name rfl (by decide)
    rcases hl with hl | hl
    · have hl' : l ∈ (if env.canAlts = true then
          prevNamesLines tu.prevNames ++ altLines env.userGroup env.alts
          else []) := hl
      split at hl'
      · rcases List.mem_append.mp hl' with hl2 | hl2
        · obtain ⟨x, rfl⟩ := prevNamesLines_shape tu.prevNames l hl2
          exact notIP_head_append "Previous names: " x rfl (by decide)
        · rcases altLines_shape env.userGroup env.alts l hl2 with ⟨x, rfl⟩ | ⟨x, rfl⟩
          · exact notIP_head_append "Alt: " x rfl (by decide)
          · exact notIP_head_append "Previous names: " x rfl (by decide)
      · exact absurd hl' (List.not_mem_nil l)
    rcases hl with hl | hl
    · have hl' : l ∈ (match env.groupName with
          | some gn => ["Group: " ++ gn ++ " (" ++ tu.group ++ ")"]
          | none => []) := hl
      split at hl'
      · have hleq := List.mem_singleton.mp hl'
        subst hleq
        simp only [String.append_assoc]
        exact notIP_head_append "Group: " _ rfl (by decide)
      · exact absurd hl' (List.not_mem_nil l)
    rcases hl with hl | hl
    · have hl' : l ∈ (if tu.isSysop = true then
          ["(Pokémon Showdown System Operator)"] else []) := hl
      split at hl'
      · rcases List.mem_singleton.mp hl' with rfl
        decide
      · exact absurd hl' (List.not_mem_nil l)
    rcases hl with hl | hl
    · have hl' : l ∈ (if tu.authenticated = false then
          ["(Unregistered)"] else []) := hl
      split at hl'
      · rcases List.mem_singleton.mp hl' with rfl
        decide
      · exact absurd hl' (List.not_mem_nil l)
    · rcases hl with hf | rfl
      · exact hf.elim
      · exact notIP_head_append "|raw|" _ rfl (by decide)

/-- Witness for C10: a broadcasting invocation is blind to the IP list,
and a private self-whois shows the IP line. -/
theorem whois_ip_guard_witness :
    whoisLines { broadcasting := true } { name := "u", ips := ["1.2.3.4"] } =
      whoisLines { broadcasting := true } { name := "u", ips := ["5.6.7.8"] } ∧
    ipLine ["1.2.3.4"] ∈
      whoisLines { broadcasting := false, isSelf := true }
        { name := "u", ips := ["1.2.3.4"] } :=
  ⟨whois_ip_guard.1 { broadcasting := true } { name := "u" }
      ["1.2.3.4"] ["5.6.7.8"] rfl,
   whois_ip_guard.2.1 { broadcasting := false, isSelf := true }
      { name := "u", ips := ["1.2.3.4"] } rfl (Or.inr rfl)⟩

end PS

namespace PS

/-- A Ferroseed-like entry: derived-LC legal (has a later evolution, no
pre-evolution, not banned) but stored in another tier, exactly the case
the inline comment at lines 377-378 says the derived check is for. -/
def c6Entry : Template :=
  { species := "Ferroseed", tier := "NU", evos := ["ferrothorn"] }

/-- C6 (code bug): requiring `lc` deletes a derived-LC entry whose stored
tier label differs, because after the derived check passes, the generic
pass still matches the stored tier against the requested tier strings. -/
theorem lc_override_not_applied :
    isLCDerived [] c6Entry ∧
    tierPass [] [("lc", true)] [("ferroseed", c6Entry)] = [] := by
  constructor
  · decide
  · decide

/-- C4 (code bug): the final table maps `lyzz` to the redirect string
`"Lynn"`, no key `Lynn` exists (the handler key is the lowercase `lynn`),
and `lyzz` is the only redirect in the table that does not name a
handler-function key. -/
theorem lyzz_alias_dangles :
    getKeyC commandsTable "lyzz" = some (CmdVal.alias "Lynn") ∧
    getKeyC commandsTable "Lynn" = none ∧
    getKeyC commandsTable "lynn" = some CmdVal.fn ∧
    commandsTable.all (fun p =>
      match p.2 with
      | CmdVal.alias s => p.1 = "lyzz" || aliasResolves commandsTable s
      | CmdVal.fn => true) = true := by
  set_option maxRecDepth 4096 in
  refine ⟨by decide, by decide, by decide, by decide⟩

end PS

namespace PS

/-! ## C2: the moves pass and evolutionary propagation -/

/-- Counterexample entry: can learn the excluded move. -/
def cxPika : Template :=
  { id := "pikachu", species := "Pikachu", learnset := some ["thunderbolt"] }

/-- Its pre-evolution, which appears *later* in the catalog (as baby forms
do in the real Pokedex) and cannot learn the move. -/
def cxPichu : Template :=
  { id := "pichu", species := "Pichu", learnset := some [],
    evos := ["pikachu"] }

/-- Catalog order: the evolution first, the pre-evolution after it. -/
def cxCatalog : Catalog := [("pikachu", cxPika), ("pichu", cxPichu)]

def cxTools : ToolsData :=
  { abilities := [], typeChart := [], moves := ["Thunderbolt"] }

/-- The search excludes Thunderbolt. -/
def cxMoves : BMap := [("Thunderbolt", false)]

/-- C2 counterexample: `pikachu` is marked removed (`false`) by the
excluded move, yet the propagation loop reinstates it — when `pichu` is
visited, `pikachu` has already been deleted at its own visit, so the
`!== false` guard no longer sees the mark and re-adds it.  The claim that
an entry removed by an excluded move predicate is never reinstated by
evolutionary propagation is false on this input. -/
theorem moves_exclusion_reinstated_counterexample :
    movesLoop1 cxTools cxCatalog cxMoves cxCatalog =
      .ok ([("pikachu", DexVal.fals), ("pichu", DexVal.tmpl cxPichu)], []) ∧
    movesPass cxTools cxCatalog cxMoves cxCatalog =
      .ok [("pichu", DexVal.tmpl cxPichu), ("pikachu", DexVal.tmpl cxPika)] :=
  ⟨by rfl, by rfl⟩

/-- The value invariant of the `dex` object: every template value is the
catalog template of its key (as established by the dex construction and
preserved everywhere). -/
def ValInv (catalog : Catalog) (dex : DexList) : Prop :=
  ∀ p ∈ dex, ∀ t, p.2 = DexVal.tmpl t → t = getTemplateD catalog p.1

end PS

namespace PS

theorem lookupD_mem {dex : DexList} {k : String} {v : DexVal}
    (h : lookupD dex k = some v) : (k, v) ∈ dex := by
  induction dex with
  | nil => exact Option.noConfusion h
  | cons p rest ih =>
    unfold lookupD at h
    split at h
    · rename_i hp
      injection h with h'
      have : p = (k, v) := by
        cases p
        simp only at hp h'
        simp [hp, h']
      exact this ▸ List.mem_cons_self p rest
    · exact List.mem_cons_of_mem p (ih h)

theorem lookupD_eq_none {dex : DexList} {e : String}
    (h : e ∉ dex.map Prod.fst) : lookupD dex e = none := by
  induction dex with
  | nil => rfl
  | cons p rest ih =>
    simp only [List.map_cons, List.mem_cons] at h
    push_neg at h
    show (if p.1 = e then some p.2 else lookupD rest e) = none
    rw [if_neg (fun hc => h.1 hc.symm)]
    exact ih h.2

theorem mem_keys_of_lookupD {dex : DexList} {e : String}
    (h : lookupD dex e ≠ none) : e ∈ dex.map Prod.fst := by
  by_contra hc
  exact h (lookupD_eq_none hc)

theorem lookupD_eraseKeyD_ne {dex : DexList} {k e : String} (h : k ≠ e) :
    lookupD (eraseKeyD dex k) e = lookupD dex e := by
  induction dex with
  | nil => rfl
  | cons p rest ih =>
    unfold eraseKeyD
    split
    · rename_i hp
      have hrhs : lookupD (p :: rest) e = lookupD rest e := by
        show (if p.1 = e then some p.2 else lookupD rest e) = lookupD rest e
        rw [if_neg (fun hc => h (hp.symm.trans hc))]
      rw [hrhs]
      exact ih
    · show lookupD (p :: eraseKeyD rest k) e = lookupD (p :: rest) e
      show (if p.1 = e then some p.2 else lookupD (eraseKeyD rest k) e) =
        (if p.1 = e then some p.2 else lookupD rest e)
      rw [ih]

theorem not_mem_keys_eraseKeyD_self (dex : DexList) (e : String) :
    e ∉ (eraseKeyD dex e).map Prod.fst := by
  induction dex with
  | nil => simp [eraseKeyD]
  | cons p rest ih =>
    unfold eraseKeyD
    split
    · exact ih
    · rename_i hp
      simp only [List.map_cons, List.mem_cons]
      rintro (rfl | hmem)
      · exact hp rfl
      · exact ih hmem

theorem keys_eraseKeyD_subset {dex : DexList} {k a : String}
    (h : a ∈ (eraseKeyD dex k).map Prod.fst) : a ∈ dex.map Prod.fst := by
  induction dex with
  | nil => simp [eraseKeyD] at h
  | cons p rest ih =>
    unfold eraseKeyD at h
    split at h
    · exact List.mem_cons_of_mem _ (ih h)
    · simp only [List.map_cons, List.mem_cons] at h ⊢
      rcases h with h | h
      · exact Or.inl h
      · exact Or.inr (ih h)

theorem lookupD_setKeyD_self (dex : DexList) (k : String) (v : DexVal) :
    lookupD (setKeyD dex k v) k = some v := by
  induction dex with
  | nil => simp [setKeyD, lookupD]
  | cons p rest ih =>
    unfold setKeyD
    split
    · simp [lookupD]
    · rename_i hp
      unfold lookupD
      rw [if_neg hp]
      exact ih

theorem lookupD_setKeyD_ne {dex : DexList} {j e : String} {v : DexVal}
    (h : j ≠ e) : lookupD (setKeyD dex j v) e = lookupD dex e := by
  induction dex with
  | nil => simp [setKeyD, lookupD, h]
  | cons p rest ih =>
    unfold setKeyD
    split
    · rename_i hp
      show (if j = e then some v else lookupD rest e) =
        (if p.1 = e then some p.2 else lookupD rest e)
      rw [if_neg h, if_neg (fun hc => h (hp.symm.trans hc))]
    · show (if p.1 = e then some p.2 else lookupD (setKeyD rest j v) e) =
        (if p.1 = e then some p.2 else lookupD rest e)
      rw [ih]

theorem keys_setKeyD_mem {dex : DexList} {j a : String} {v : DexVal}
    (h : a ∈ (setKeyD dex j v).map Prod.fst) :
    a ∈ dex.map Prod.fst ∨ a = j := by
  induction dex with
  | nil => simpa [setKeyD] using h
  | cons p rest ih =>
    unfold setKeyD at h
    split at h
    · rename_i hp
      simp only [List.map_cons, List.mem_cons] at h ⊢
      rcases h with rfl | h
      · exact Or.inr rfl
      · exact Or.inl (Or.inr h)
    · simp only [List.map_cons, List.mem_cons] at h ⊢
      rcases h with h | h
      · exact Or.inl (Or.inl h)
      · rcases ih h with h2 | h2
        · exact Or.inl (Or.inr h2)
        · exact Or.inr h2

end PS

namespace PS

theorem propagate_preserves_fals {c : Catalog} {e : String} :
    ∀ {es : List String} {dex : DexList},
      lookupD dex e = some DexVal.fals →
      lookupD (propagate c dex es) e = some DexVal.fals
  | [], dex, h => h
  | j :: rest, dex, h => by
    unfold propagate
    by_cases hje : j = e
    · subst hje
      rw [if_pos h]
      exact propagate_preserves_fals h
    · split
      · exact propagate_preserves_fals h
      · exact propagate_preserves_fals (by rw [lookupD_setKeyD_ne hje]; exact h)

theorem propagate_preserves_ne_fals {c : Catalog} {e : String} :
    ∀ {es : List String} {dex : DexList},
      lookupD dex e ≠ some DexVal.fals →
      lookupD (propagate c dex es) e ≠ some DexVal.fals
  | [], _, h => h
  | j :: rest, dex, h => by
    unfold propagate
    split
    · exact propagate_preserves_ne_fals h
    · by_cases hje : j = e
      · subst hje
        refine propagate_preserves_ne_fals ?_
        rw [lookupD_setKeyD_self]
        intro hc
        exact DexVal.noConfusion (Option.some.inj hc)
      · exact propagate_preserves_ne_fals
          (by rw [lookupD_setKeyD_ne hje]; exact h)

theorem propagate_preserves_exact {c : Catalog} {e : String} :
    ∀ {es : List String} {dex : DexList},
      lookupD dex e = some (DexVal.tmpl (getTemplateD c e)) →
      lookupD (propagate c dex es) e = some (DexVal.tmpl (getTemplateD c e))
  | [], _, h => h
  | j :: rest, dex, h => by
    unfold propagate
    split
    · exact propagate_preserves_exact h
    · by_cases hje : j = e
      · subst hje
        exact propagate_preserves_exact (by rw [lookupD_setKeyD_self])
      · exact propagate_preserves_exact
          (by rw [lookupD_setKeyD_ne hje]; exact h)

theorem propagate_sets_e {c : Catalog} {e : String} :
    ∀ {es : List String} {dex : DexList}, e ∈ es →
      lookupD dex e ≠ some DexVal.fals →
      lookupD (propagate c dex es) e = some (DexVal.tmpl (getTemplateD c e))
  | [], _, hmem, _ => absurd hmem (List.not_mem_nil e)
  | j :: rest, dex, hmem, hne => by
    unfold propagate
    by_cases hje : j = e
    · subst hje
      rw [if_neg hne]
      exact propagate_preserves_exact (by rw [lookupD_setKeyD_self])
    · have hmem' : e ∈ rest := by
        rcases List.mem_cons.mp hmem with h | h
        · exact absurd h.symm hje
        · exact h
      split
      · exact propagate_sets_e hmem' hne
      · exact propagate_sets_e hmem'
          (by rw [lookupD_setKeyD_ne hje]; exact hne)

theorem propagate_not_mem_keys {c : Catalog} {e : String} :
    ∀ {es : List String} {dex : DexList}, e ∉ dex.map Prod.fst → e ∉ es →
      e ∉ (propagate c dex es).map Prod.fst
  | [], _, h, _ => h
  | j :: rest, dex, h, hes => by
    have hje : j ≠ e := fun hc => hes (hc ▸ List.mem_cons_self j rest)
    have hes' : e ∉ rest := fun hc => hes (List.mem_cons_of_mem j hc)
    unfold propagate
    split
    · exact propagate_not_mem_keys h hes'
    · refine propagate_not_mem_keys ?_ hes'
      intro hc
      rcases keys_setKeyD_mem hc with h2 | h2
      · exact h h2
      · exact hje h2.symm

theorem propagate_preserves_tmpl {c : Catalog} {k : String} :
    ∀ {es : List String} {dex : DexList},
      (∃ t, lookupD dex k = some (DexVal.tmpl t)) →
      ∃ t, lookupD (propagate c dex es) k = some (DexVal.tmpl t)
  | [], _, h => h
  | j :: rest, dex, h => by
    unfold propagate
    split
    · exact propagate_preserves_tmpl h
    · by_cases hjk : j = k
      · subst hjk
        exact propagate_preserves_tmpl ⟨_, by rw [lookupD_setKeyD_self]⟩
      · exact propagate_preserves_tmpl
          (by rw [lookupD_setKeyD_ne hjk]; exact h)

end PS

namespace PS

theorem valInv_eraseKeyD {c : Catalog} {dex : DexList} {k : String}
    (hv : ValInv c dex) : ValInv c (eraseKeyD dex k) := by
  induction dex with
  | nil => exact hv
  | cons p rest ih =>
    have hv' : ValInv c rest := fun q hq => hv q (List.mem_cons_of_mem p hq)
    unfold eraseKeyD
    split
    · exact ih hv'
    · intro q hq
      rcases List.mem_cons.mp hq with hqp | hq2
      · exact hv q (List.mem_cons.mpr (Or.inl hqp))
      · exact ih hv' q hq2

theorem valInv_setKeyD {c : Catalog} {dex : DexList} {j : String}
    (hv : ValInv c dex) :
    ValInv c (setKeyD dex j (DexVal.tmpl (getTemplateD c j))) := by
  induction dex with
  | nil =>
    intro q hq t ht
    rcases List.mem_singleton.mp hq with rfl
    simp only at ht
    injection ht with ht'
    exact ht'.symm
  | cons p rest ih =>
    have hv' : ValInv c rest := fun q hq => hv q (List.mem_cons_of_mem p hq)
    unfold setKeyD
    split
    · intro q hq t ht
      rcases List.mem_cons.mp hq with rfl | hq2
      · simp only at ht
        injection ht with ht'
        exact ht'.symm
      · exact hv' q hq2 t ht
    · intro q hq t ht
      rcases List.mem_cons.mp hq with hqp | hq2
      · exact hv q (List.mem_cons.mpr (Or.inl hqp)) t ht
      · exact ih hv' q hq2 t ht

theorem valInv_propagate {c : Catalog} :
    ∀ {es : List String} {dex : DexList}, ValInv c dex →
      ValInv c (propagate c dex es)
  | [], _, hv => hv
  | j :: rest, dex, hv => by
    unfold propagate
    split
    · exact valInv_propagate hv
    · exact valInv_propagate (valInv_setKeyD hv)

end PS

namespace PS

theorem valInv_loop2Propagate {c : Catalog} {dex : DexList} {k : String}
    (hv : ValInv c dex) : ValInv c (loop2Propagate c dex k) := by
  unfold loop2Propagate
  split
  · split
    · exact hv
    · exact valInv_propagate hv
  · exact hv

theorem valInv_loop2Step {c : Catalog} {dex : DexList} {k : String}
    (hv : ValInv c dex) : ValInv c (loop2Step c dex k) := by
  simp only [loop2Step]
  split
  · exact valInv_eraseKeyD (valInv_loop2Propagate hv)
  · exact valInv_loop2Propagate hv

theorem loop2Propagate_preserves_fals {c : Catalog} {dex : DexList}
    {k e : String} (h : lookupD dex e = some DexVal.fals) :
    lookupD (loop2Propagate c dex k) e = some DexVal.fals := by
  unfold loop2Propagate
  split
  · split
    · exact h
    · exact propagate_preserves_fals h
  · exact h

theorem loop2Propagate_preserves_ne_fals {c : Catalog} {dex : DexList}
    {k e : String} (h : lookupD dex e ≠ some DexVal.fals) :
    lookupD (loop2Propagate c dex k) e ≠ some DexVal.fals := by
  unfold loop2Propagate
  split
  · split
    · exact h
    · exact propagate_preserves_ne_fals h
  · exact h

theorem loop2Propagate_preserves_exact {c : Catalog} {dex : DexList}
    {k e : String}
    (h : lookupD dex e = some (DexVal.tmpl (getTemplateD c e))) :
    lookupD (loop2Propagate c dex k) e =
      some (DexVal.tmpl (getTemplateD c e)) := by
  unfold loop2Propagate
  split
  · split
    · exact h
    · exact propagate_preserves_exact h
  · exact h

theorem loop2Propagate_preserves_tmpl {c : Catalog} {dex : DexList}
    {j k : String} (h : ∃ t, lookupD dex k = some (DexVal.tmpl t)) :
    ∃ t, lookupD (loop2Propagate c dex j) k = some (DexVal.tmpl t) := by
  unfold loop2Propagate
  split
  · split
    · exact h
    · exact propagate_preserves_tmpl h
  · exact h

theorem loop2Propagate_not_mem_keys {c : Catalog} {dex : DexList}
    {k e : String} (hv : ValInv c dex) (h : e ∉ dex.map Prod.fst)
    (hev : e ∉ (getTemplateD c k).evos) :
    e ∉ (loop2Propagate c dex k).map Prod.fst := by
  unfold loop2Propagate
  split
  · rename_i t hm
    split
    · exact h
    · have hmem := lookupD_mem hm
      have hval : t = getTemplateD c k := hv (k, DexVal.tmpl t) hmem t rfl
      have hev2 : e ∉ t.evos := by rw [hval]; exact hev
      exact propagate_not_mem_keys h hev2
  · exact h

theorem loop2Step_preserves_fals {c : Catalog} {dex : DexList}
    {k e : String} (hke : k ≠ e)
    (h : lookupD dex e = some DexVal.fals) :
    lookupD (loop2Step c dex k) e = some DexVal.fals := by
  simp only [loop2Step]
  split
  · rw [lookupD_eraseKeyD_ne hke]
    exact loop2Propagate_preserves_fals h
  · exact loop2Propagate_preserves_fals h

theorem loop2Step_preserves_ne_fals {c : Catalog} {dex : DexList}
    {k e : String} (h : lookupD dex e ≠ some DexVal.fals) :
    lookupD (loop2Step c dex k) e ≠ some DexVal.fals := by
  simp only [loop2Step]
  split
  · by_cases hke : k = e
    · subst hke
      rw [lookupD_eq_none (not_mem_keys_eraseKeyD_self _ k)]
      exact fun hc => Option.noConfusion hc
    · rw [lookupD_eraseKeyD_ne hke]
      exact loop2Propagate_preserves_ne_fals h
  · exact loop2Propagate_preserves_ne_fals h

theorem loop2Step_preserves_exact {c : Catalog} {dex : DexList}
    {k e : String}
    (h : lookupD dex e = some (DexVal.tmpl (getTemplateD c e))) :
    lookupD (loop2Step c dex k) e =
      some (DexVal.tmpl (getTemplateD c e)) := by
  simp only [loop2Step]
  split
  · rename_i hfals
    by_cases hke : k = e
    · subst hke
      rw [loop2Propagate_preserves_exact h] at hfals
      exact absurd (Option.some.inj hfals) (by intro hc; cases hc)
    · rw [lookupD_eraseKeyD_ne hke]
      exact loop2Propagate_preserves_exact h
  · exact loop2Propagate_preserves_exact h

theorem loop2Step_preserves_tmpl {c : Catalog} {dex : DexList}
    {j k : String} (h : ∃ t, lookupD dex k = some (DexVal.tmpl t)) :
    ∃ t, lookupD (loop2Step c dex j) k = some (DexVal.tmpl t) := by
  simp only [loop2Step]
  split
  · rename_i hfals
    by_cases hjk : j = k
    · subst hjk
      obtain ⟨t, ht⟩ := loop2Propagate_preserves_tmpl (c := c) (j := j) h
      rw [ht] at hfals
      exact absurd (Option.some.inj hfals) (by intro hc; cases hc)
    · obtain ⟨t, ht⟩ := loop2Propagate_preserves_tmpl (c := c) (j := j) h
      exact ⟨t, by rw [lookupD_eraseKeyD_ne hjk]; exact ht⟩
  · exact loop2Propagate_preserves_tmpl h

theorem loop2Step_not_mem_keys {c : Catalog} {dex : DexList} {k e : String}
    (hv : ValInv c dex) (h : e ∉ dex.map Prod.fst)
    (hev : e ∉ (getTemplateD c k).evos) :
    e ∉ (loop2Step c dex k).map Prod.fst := by
  simp only [loop2Step]
  split
  · intro hc
    exact loop2Propagate_not_mem_keys hv h hev (keys_eraseKeyD_subset hc)
  · exact loop2Propagate_not_mem_keys hv h hev

end PS

namespace PS

theorem valInv_foldl {c : Catalog} :
    ∀ (L : List String) (dex : DexList), ValInv c dex →
      ValInv c (L.foldl (loop2Step c) dex)
  | [], _, hv => hv
  | k :: rest, dex, hv => by
    rw [List.foldl_cons]
    exact valInv_foldl rest _ (valInv_loop2Step hv)

theorem foldl_loop2_preserves_fals {c : Catalog} {e : String} :
    ∀ (L : List String) (dex : DexList), e ∉ L →
      lookupD dex e = some DexVal.fals →
      lookupD (L.foldl (loop2Step c) dex) e = some DexVal.fals
  | [], _, _, h => h
  | k :: rest, dex, hL, h => by
    rw [List.foldl_cons]
    have hke : k ≠ e := fun hc => hL (hc ▸ List.mem_cons_self k rest)
    exact foldl_loop2_preserves_fals rest _
      (fun hc => hL (List.mem_cons_of_mem k hc))
      (loop2Step_preserves_fals hke h)

theorem foldl_loop2_preserves_ne_fals {c : Catalog} {e : String} :
    ∀ (L : List String) (dex : DexList),
      lookupD dex e ≠ some DexVal.fals →
      lookupD (L.foldl (loop2Step c) dex) e ≠ some DexVal.fals
  | [], _, h => h
  | k :: rest, dex, h => by
    rw [List.foldl_cons]
    exact foldl_loop2_preserves_ne_fals rest _ (loop2Step_preserves_ne_fals h)

theorem foldl_loop2_preserves_exact {c : Catalog} {e : String} :
    ∀ (L : List String) (dex : DexList),
      lookupD dex e = some (DexVal.tmpl (getTemplateD c e)) →
      lookupD (L.foldl (loop2Step c) dex) e =
        some (DexVal.tmpl (getTemplateD c e))
  | [], _, h => h
  | k :: rest, dex, h => by
    rw [List.foldl_cons]
    exact foldl_loop2_preserves_exact rest _ (loop2Step_preserves_exact h)

theorem foldl_loop2_preserves_tmpl {c : Catalog} {k : String} :
    ∀ (L : List String) (dex : DexList),
      (∃ t, lookupD dex k = some (DexVal.tmpl t)) →
      ∃ t, lookupD (L.foldl (loop2Step c) dex) k = some (DexVal.tmpl t)
  | [], _, h => h
  | j :: rest, dex, h => by
    rw [List.foldl_cons]
    exact foldl_loop2_preserves_tmpl rest _ (loop2Step_preserves_tmpl h)

theorem foldl_loop2_not_mem {c : Catalog} {e : String} :
    ∀ (L : List String) (dex : DexList), ValInv c dex →
      e ∉ dex.map Prod.fst →
      (∀ k ∈ L, e ∉ (getTemplateD c k).evos) →
      e ∉ (L.foldl (loop2Step c) dex).map Prod.fst
  | [], _, _, h, _ => h
  | k :: rest, dex, hv, h, hL => by
    rw [List.foldl_cons]
    exact foldl_loop2_not_mem rest _ (valInv_loop2Step hv)
      (loop2Step_not_mem_keys hv h (hL k (List.mem_cons_self k rest)))
      (fun j hj => hL j (List.mem_cons_of_mem k hj))

theorem loop2Step_self_fals {c : Catalog} {dex : DexList} {e : String}
    (h : lookupD dex e = some DexVal.fals) :
    loop2Step c dex e = eraseKeyD dex e := by
  have hprop : loop2Propagate c dex e = dex := by
    unfold loop2Propagate
    rw [h]
  simp only [loop2Step, hprop, h]

/-- C2 (amended): over the second (propagation) loop of the moves pass,
run on the post-first-loop object `d` whose template values agree with the
catalog: (1) an entry `e` marked removed (`false`) by an excluded move is
absent from the final object *provided* every entry listing `e` among its
evolutions is enumerated before `e`; (2) every direct evolution `e` of an
entry that survived the first loop unmarked is in the final object with
its catalog template, regardless of `e`'s own learn-set, provided `e`
itself is not marked removed. -/
theorem movesLoop2_exclusion_and_propagation (c : Catalog) (d : DexList)
    (e : String) (hv : ValInv c d) :
    ((d.map Prod.fst).Nodup →
      lookupD d e = some DexVal.fals →
      (∃ pre suf, d.map Prod.fst = pre ++ e :: suf ∧
        ∀ k ∈ suf, e ∉ (getTemplateD c k).evos) →
      lookupD (movesLoop2 c d) e = none) ∧
    (∀ (k : String) (t : Template), lookupD d k = some (DexVal.tmpl t) →
      e ∈ t.evos → lookupD d e ≠ some DexVal.fals →
      lookupD (movesLoop2 c d) e =
        some (DexVal.tmpl (getTemplateD c e))) := by
  constructor
  · rintro hnd hfals ⟨pre, suf, hdecomp, hsuf⟩
    unfold movesLoop2
    rw [hdecomp, List.foldl_append, List.foldl_cons]
    have hepre : e ∉ pre := by
      rw [hdecomp] at hnd
      obtain ⟨-, -, hdisj⟩ := List.nodup_append.mp hnd
      intro hc
      exact hdisj hc (List.mem_cons_self e suf)
    have hd1 : lookupD (pre.foldl (loop2Step c) d) e = some DexVal.fals :=
      foldl_loop2_preserves_fals pre d hepre hfals
    have hv1 : ValInv c (pre.foldl (loop2Step c) d) := valInv_foldl pre d hv
    rw [loop2Step_self_fals hd1]
    refine lookupD_eq_none (foldl_loop2_not_mem suf _ ?_ ?_ hsuf)
    · exact valInv_eraseKeyD hv1
    · exact not_mem_keys_eraseKeyD_self _ e
  · intro k t hk hev hne
    have hkmem : k ∈ d.map Prod.fst :=
      mem_keys_of_lookupD (by rw [hk]; exact fun hc => Option.noConfusion hc)
    obtain ⟨pre2, suf2, hdecomp⟩ := List.append_of_mem hkmem
    unfold movesLoop2
    rw [hdecomp, List.foldl_append, List.foldl_cons]
    have hv2 : ValInv c (pre2.foldl (loop2Step c) d) := valInv_foldl pre2 d hv
    obtain ⟨t', ht'⟩ := foldl_loop2_preserves_tmpl pre2 d ⟨t, hk⟩
    have hne2 : lookupD (pre2.foldl (loop2Step c) d) e ≠ some DexVal.fals :=
      foldl_loop2_preserves_ne_fals pre2 d hne
    have htc : t = getTemplateD c k := hv (k, DexVal.tmpl t) (lookupD_mem hk) t rfl
    have ht'c : t' = getTemplateD c k :=
      hv2 (k, DexVal.tmpl t') (lookupD_mem ht') t' rfl
    have hevt' : e ∈ t'.evos := by
      rw [ht'c, ← htc]
      exact hev
    have hprop : lookupD (loop2Propagate c (pre2.foldl (loop2Step c) d) k) e =
        some (DexVal.tmpl (getTemplateD c e)) := by
      have hred : loop2Propagate c (pre2.foldl (loop2Step c) d) k =
          propagate c (pre2.foldl (loop2Step c) d) t'.evos := by
        simp only [loop2Propagate, ht']
        rw [if_neg (by
          intro hc
          rw [List.isEmpty_iff] at hc
          rw [hc] at hevt'
          exact List.not_mem_nil e hevt')]
      rw [hred]
      exact propagate_sets_e hevt' hne2
    have hstep : lookupD
        (loop2Step c (pre2.foldl (loop2Step c) d) k) e =
        some (DexVal.tmpl (getTemplateD c e)) := by
      simp only [loop2Step]
      obtain ⟨t'', ht''⟩ :=
        loop2Propagate_preserves_tmpl (c := c) (j := k) ⟨t', ht'⟩
      split
      · rename_i hfals
        rw [ht''] at hfals
        exact absurd (Option.some.inj hfals) (by intro hc; cases hc)
      · exact hprop
    exact foldl_loop2_preserves_exact suf2 _ hstep

end PS

namespace PS

/-- Witness catalog for C2, in pre-evolution-first order. -/
def w2Pika : Template := { id := "pikachu", species := "Pikachu" }

def w2Pichu : Template :=
  { id := "pichu", species := "Pichu", evos := ["pikachu"] }

def w2Catalog : Catalog := [("pichu", w2Pichu), ("pikachu", w2Pika)]

/-- A post-first-loop object with the evolution marked removed. -/
def w2d : DexList :=
  [("pichu", DexVal.tmpl w2Pichu), ("pikachu", DexVal.fals)]

/-- A post-first-loop object in which the evolution was deleted outright. -/
def w2d2 : DexList := [("pichu", DexVal.tmpl w2Pichu)]

/-- Witness for the amended C2: with the pre-evolution enumerated first,
the marked-removed evolution stays out, and an unmarked survivor pulls its
deleted evolution back in. -/
theorem movesLoop2_exclusion_and_propagation_witness :
    lookupD (movesLoop2 w2Catalog w2d) "pikachu" = none ∧
    lookupD (movesLoop2 w2Catalog w2d2) "pikachu" =
      some (DexVal.tmpl (getTemplateD w2Catalog "pikachu")) := by
  have hv1 : ValInv w2Catalog w2d := by
    intro p hp t ht
    rcases List.mem_cons.mp hp with rfl | hp2
    · injection ht with h'
      rw [← h']
      decide
    · rcases List.mem_singleton.mp hp2 with rfl
      exact absurd ht (by intro hc; cases hc)
  have hv2 : ValInv w2Catalog w2d2 := by
    intro p hp t ht
    rcases List.mem_singleton.mp hp with rfl
    injection ht with h'
    rw [← h']
    decide
  constructor
  · exact (movesLoop2_exclusion_and_propagation w2Catalog w2d "pikachu" hv1).1
      (by decide) (by rfl)
      ⟨["pichu"], [], by rfl, fun k hk => absurd hk (List.not_mem_nil k)⟩
  · exact (movesLoop2_exclusion_and_propagation w2Catalog w2d2 "pikachu" hv2).2
      "pichu" w2Pichu (by rfl) (by decide) (by decide)

end PS
